import Mathlib

/-!
# `dynmap-export.js`: a shallow embedding of `exportDynmap`

The development follows `src/dynmap-export.js` stage by stage: the zoom-level table
(`tileLevels`), the registry scan, the corner-mode grid, the vertical remap table, the draw
loop, the confirmation gate, the export as a whole (`exportBody`, `exportDynmap`) and the
validation of the `dynmap` object.

Modelling conventions.

* JavaScript strings are lists of characters (`Str`).  Only `/`, `z`, `-`, `_` and the ASCII
  digits are ever inspected, so the difference between code units and code points is immaterial.
* JavaScript numbers are exact: integers are `Int`, and the grid coordinates produced by the
  division `tilePos[0] / tilePosOffset` are rationals (`ℚ`).  Rounding of doubles, `NaN` and
  the two zeros are outside the model.
* A `for (let i = lo; i <= hi; i++)` loop is `forLoop` with explicit fuel; `forValues` supplies
  the fuel the loop needs, and `forLoop_fuel` shows that more fuel changes nothing.
* `return false` inside the scan is `none`.
* The confirmation gate is a state machine over timer ticks and the two user signals.
* A run of the export is summarised by `ExportRun`: how it ended, whether the gate was
  awaited, the canvas created and the iterations of the draw loop.  The `dynmap` object of the
  validation is a `JSVal`; a property access that throws is `none`.
* Two things the host supplies are parameters: `fracText`, the text of a non-integer number
  (integers are printed exactly by `intToString`), and `loads`, which tells whether
  `getImage(url)` resolves to an image.
-/

namespace DynmapExport

/-! ## Definitions -/

/-- JavaScript strings, modelled as lists of characters. -/
abbrev Str := List Char

/-- Values of the loop variable for which the body of `for (let i = lo; i <= hi; i++)` runs,
with `fuel` bounding the number of iterations. -/
def forLoop {α : Type} [LinearOrderedCommRing α] (fuel : Nat) (i hi : α) : List α :=
  match fuel with
  | 0 => []
  | n + 1 => if i ≤ hi then i :: forLoop n (i + 1) hi else []

/-- The loop `for (let i = lo; i <= hi; i++)` with the number of iterations it performs,
`⌊hi - lo⌋ + 1` (none when that is not positive). -/
def forValues {α : Type} [LinearOrderedCommRing α] [FloorRing α] (lo hi : α) : List α :=
  forLoop (⌊hi - lo⌋ + 1).toNat lo hi

/-- Lines 202-208: the table built by
`for (let i = mapZoomIn * -1; i <= mapZoomOut; i++) tileLevels.unshift(i >= 0 ? i : 0)`. -/
def tileLevels (mapZoomIn mapZoomOut : Int) : List Int :=
  (forValues (mapZoomIn * -1) mapZoomOut).foldl
    (fun acc i => (if i ≥ 0 then i else 0) :: acc) []

/-- Line 223: `useLevel = tileLevels[mapZoomCurr]`; `none` stands for `undefined`. -/
def useLevel (mapZoomIn mapZoomOut : Int) (mapZoomCurr : Nat) : Option Int :=
  (tileLevels mapZoomIn mapZoomOut)[mapZoomCurr]?

/-! ### String primitives used by the scan -/

/-- `String.prototype.split` with a one-character separator: the result always has at least
one segment (`''.split('/')` is `['']`). -/
def split (sep : Char) : Str → List Str
  | [] => [[]]
  | c :: cs =>
    if c = sep then [] :: split sep cs
    else
      match split sep cs with
      | [] => [[c]]
      | s :: ss => (c :: s) :: ss

/-- The element `split[length - k]` of `split = filePath.split('/')` (lines 255-262):
`k = 1` is the file name, `k = 3` the map name, `k = 4` the world name.  The scan reads it
only after the test `length >= 5` of line 259, so for `k ≤ 4` the index is inside the array. -/
def segFromEnd (filePath : Str) (k : Nat) : Str :=
  (split '/' filePath).getD ((split '/' filePath).length - k) []

/-- Line 270, `fileName.match(/z+/)`: the leftmost maximal run of `z`, `none` for `null`. -/
def matchZ (fileName : Str) : Option Str :=
  match fileName.dropWhile (fun c => c != 'z') with
  | [] => none
  | rest => some (rest.takeWhile (fun c => c == 'z'))

/-- Line 271: `tileLevelN = (tileLevelS ? tileLevelS[0].length : 0)`. -/
def tileLevelN (fileName : Str) : Nat :=
  match matchZ fileName with
  | some m => m.length
  | none => 0

/-- Left-to-right matcher for the global regular expression `-?[0-9]+`.  `cur` holds, reversed, the characters of the
match in progress: `[]` when none is open and `['-']` after a minus sign that has not yet been
followed by a digit.  A digit extends the match; any other character closes a match that has
a digit, and a minus sign then opens a candidate for the next one. -/
def matchIntsAux (cur : Str) : Str → List Str
  | [] => if cur = [] ∨ cur = ['-'] then [] else [cur.reverse]
  | c :: cs =>
    if c.isDigit then matchIntsAux (c :: cur) cs
    else
      (if cur = [] ∨ cur = ['-'] then [] else [cur.reverse])
        ++ matchIntsAux (if c = '-' then ['-'] else []) cs

/-- Line 274, `fileName.match` with the global regular expression `-?[0-9]+`: all matches in order (`[]` for `null`). -/
def matchInts (fileName : Str) : List Str :=
  matchIntsAux [] fileName

/-- Value of a run of decimal digits. -/
def parseDigits (ds : Str) : Nat :=
  ds.foldl (fun n c => 10 * n + (c.toNat - 48)) 0

/-- Line 278, `parseInt(v)` on a match of `-?[0-9]+`: an optional minus sign and the decimal
digits that follow. -/
def parseInt (v : Str) : Int :=
  match v with
  | '-' :: ds => -((parseDigits (ds.takeWhile Char.isDigit) : Nat) : Int)
  | ds => ((parseDigits (ds.takeWhile Char.isDigit) : Nat) : Int)

/-! ### Registry scan (lines 246-314) -/

/-- An element of `tileInfo`: `{ filePath, tilePos: [x, y] }`. -/
structure TileRecord where
  filePath : Str
  tilePos : ℚ × ℚ
  deriving DecidableEq

/-- The variables the scan loop updates: `tileInfo` and the four coordinate extremes. -/
structure ScanState where
  tileInfo : List TileRecord
  tileMinX : ℚ
  tileMaxX : ℚ
  tileMinY : ℚ
  tileMaxY : ℚ
  deriving DecidableEq

/-- Lines 220 and 232: `tileInfo = []`, `tileMinX = 0, tileMaxX = 0, tileMinY = 0,
tileMaxY = 0`. -/
def ScanState.init : ScanState :=
  { tileInfo := [], tileMinX := 0, tileMaxX := 0, tileMinY := 0, tileMaxY := 0 }

/-- Lines 274-282: the two raw coordinates of the file name, `none` when the match does not
have exactly two elements (the branch that returns `false`). -/
def rawPos (filePath : Str) : Option (Int × Int) :=
  match matchInts (segFromEnd filePath 1) with
  | [sx, sy] => some (parseInt sx, parseInt sy)
  | _ => none

/-- Lines 284-288: `isUse`. -/
def isUse (useLevel : Nat) (useWorld useMap : Str) (filePath : Str) : Prop :=
  tileLevelN (segFromEnd filePath 1) = useLevel ∧
    segFromEnd filePath 4 = useWorld ∧
    segFromEnd filePath 3 = useMap

instance isUse.instDecidable (useLevel : Nat) (useWorld useMap filePath : Str) :
    Decidable (isUse useLevel useWorld useMap filePath) := by
  unfold isUse
  infer_instance

/-- Line 235: `tilePosOffset = Math.pow(2, useLevel)`. -/
def tilePosOffset (useLevel : Nat) : ℚ :=
  2 ^ useLevel

/-- Lines 299-312: widen the extremes by `(tileX, tileY)` and push the record. -/
def ScanState.accept (st : ScanState) (filePath : Str) (tileX tileY : ℚ) : ScanState :=
  { tileInfo := st.tileInfo ++ [{ filePath := filePath, tilePos := (tileX, tileY) }]
    tileMinX := if tileX < st.tileMinX then tileX else st.tileMinX
    tileMaxX := if tileX > st.tileMaxX then tileX else st.tileMaxX
    tileMinY := if tileY < st.tileMinY then tileY else st.tileMinY
    tileMaxY := if tileY > st.tileMaxY then tileY else st.tileMaxY }

/-- One iteration of the scan loop (lines 248-312) on the registry value `filePath`;
`none` is `return false`. -/
def scanEntry (useLevel : Nat) (useWorld useMap : Str) (st : ScanState) (filePath : Str) :
    Option ScanState :=
  if 5 ≤ (split '/' filePath).length then
    match rawPos filePath with
    | some (rawX, rawY) =>
      if isUse useLevel useWorld useMap filePath then
        some (st.accept filePath
          ((rawX : ℚ) / tilePosOffset useLevel) ((rawY : ℚ) / tilePosOffset useLevel))
      else some st
    | none => none
  else none

/-- The scan loop `for (let key in tileList)` from the state `st`; the registry is the list of
its `(key, filePath)` properties in enumeration order. -/
def scanFrom (useLevel : Nat) (useWorld useMap : Str) (st : ScanState)
    (registeredTiles : List (Str × Str)) : Option ScanState :=
  registeredTiles.foldlM (fun st kv => scanEntry useLevel useWorld useMap st kv.2) st

/-- The registry scan of `exportDynmap`, lines 220-314. -/
def scan (useLevel : Nat) (useWorld useMap : Str) (registeredTiles : List (Str × Str)) :
    Option ScanState :=
  scanFrom useLevel useWorld useMap ScanState.init registeredTiles

/-- A registry value the scan does not reject: at least 5 segments and exactly two
signed-integer runs in the file name. -/
def wellFormedPath (filePath : Str) : Prop :=
  5 ≤ (split '/' filePath).length ∧ (matchInts (segFromEnd filePath 1)).length = 2

instance wellFormedPath.instDecidable (filePath : Str) : Decidable (wellFormedPath filePath) := by
  unfold wellFormedPath
  infer_instance

/-- A small registry used to exercise the scan: two tiles of level 2 of `world/flat`, one tile
of level 1 and one tile of another map. -/
def sampleRegistry : List (Str × Str) :=
  [ ("a".toList, "tiles/world/flat/0_0/zz_4_-8.png".toList),
    ("b".toList, "tiles/world/flat/0_0/z_2_2.png".toList),
    ("c".toList, "tiles/world/t/0_0/zz_0_0.png".toList),
    ("d".toList, "tiles/world/flat/-1_0/zz_-12_16.png".toList) ]

/-- The record the scan derives from the first value of `sampleRegistry`. -/
def sampleRecord : TileRecord :=
  { filePath := "tiles/world/flat/0_0/zz_4_-8.png".toList, tilePos := (1, -2) }

/-- The scan of `sampleRegistry` at level 2 of `world/flat`. -/
def sampleScanState : ScanState :=
  { tileInfo :=
      [ sampleRecord,
        { filePath := "tiles/world/flat/-1_0/zz_-12_16.png".toList, tilePos := (-3, 4) } ]
    tileMinX := -3
    tileMaxX := 1
    tileMinY := -2
    tileMaxY := 4 }

/-! ### Corner mode (lines 316-348) -/

/-- Lines 326-327: `fileX = tileX * tilePosOffset` (and likewise `fileY`). -/
def fileCoord (useLevel : Nat) (tile : ℚ) : ℚ :=
  tile * tilePosOffset useLevel

/-- Decimal text of an integer, as `String(n)` and template literals produce it: a minus
sign for negative values, then the digits without leading zeros. -/
def intToString (n : Int) : Str :=
  if n < 0 then '-' :: Nat.toDigits 10 n.natAbs else Nat.toDigits 10 n.natAbs

/-- Text of a number in a template literal or under `String(...)`.  For an integer it is
`intToString`; the text of a non-integer is not modelled and is supplied by `fracText`. -/
def numberToString (fracText : ℚ → Str) (v : ℚ) : Str :=
  if v.den = 1 then intToString v.num else fracText v

/-- `String.prototype.padStart`: `s` when it already has `targetLength` characters or the
filler is empty, otherwise `s` preceded by the filler repeated and cut to the missing
length. -/
def padStart (s : Str) (targetLength : Nat) (padString : Str) : Str :=
  if targetLength ≤ s.length ∨ padString = [] then s
  else
    ((List.replicate (targetLength - s.length) padString).flatten.take
      (targetLength - s.length)) ++ s

/-- Lines 323 and 332-338: the file name of the cell with file coordinates `fileX`, `fileY`:
`'_'.padStart(useLevel + 1, 'z')` when `useLevel > 0`, then `fileX`, `_` and `fileY`. -/
def cornerFileName (fracText : ℚ → Str) (useLevel : Nat) (fileX fileY : ℚ) : Str :=
  (if useLevel > 0 then padStart ['_'] (useLevel + 1) ['z'] else [])
    ++ (numberToString fracText fileX ++ ['_'] ++ numberToString fracText fileY)

/-- Line 330: the folder name, built from `Math.floor(fileX / 32)`, `_` and
`Math.floor(fileY / 32)`. -/
def cornerFileDir (fracText : ℚ → Str) (fileX fileY : ℚ) : Str :=
  numberToString fracText ((⌊fileX / 32⌋ : Int) : ℚ) ++ ['_']
    ++ numberToString fracText ((⌊fileY / 32⌋ : Int) : ℚ)

/-- Lines 322-344: the record pushed for the cell `(tileX, tileY)`. -/
def cornerRecord (fracText : ℚ → Str) (useLevel : Nat) (tilesDir useWorld useMap : Str)
    (tileX tileY : ℚ) : TileRecord :=
  { filePath :=
      tilesDir ++ useWorld ++ ['/'] ++ useMap ++ ['/']
        ++ cornerFileDir fracText (fileCoord useLevel tileX) (fileCoord useLevel tileY)
        ++ ['/']
        ++ cornerFileName fracText useLevel (fileCoord useLevel tileX)
            (fileCoord useLevel tileY)
    tilePos := (tileX, tileY) }

/-- Lines 318-347: the list rebuilt from `[]` by the two nested loops over
`tileMinX..tileMaxX` and `tileMinY..tileMaxY`. -/
def cornerGrid (fracText : ℚ → Str) (useLevel : Nat) (tilesDir useWorld useMap : Str)
    (tileMinX tileMaxX tileMinY tileMaxY : ℚ) : List TileRecord :=
  (forValues tileMinX tileMaxX).flatMap (fun tileX =>
    (forValues tileMinY tileMaxY).map (fun tileY =>
      cornerRecord fracText useLevel tilesDir useWorld useMap tileX tileY))

/-- Lines 316-348: `tileInfo` after the mode switch: the rebuilt grid when
`mode === 'corner'`, the scanned list otherwise. -/
def tileInfoForMode (fracText : ℚ → Str) (mode : Str) (useLevel : Nat)
    (tilesDir useWorld useMap : Str) (st : ScanState) : List TileRecord :=
  if mode = "corner".toList then
    cornerGrid fracText useLevel tilesDir useWorld useMap
      st.tileMinX st.tileMaxX st.tileMinY st.tileMaxY
  else st.tileInfo

/-! ### Vertical remap (lines 456-472) -/

/-- Lines 457 and 464-465: `tileY_U`, filled by `push`. -/
def tileY_U (tileMinY tileMaxY : ℚ) : List ℚ :=
  (forValues tileMinY tileMaxY).foldl (fun acc i => acc ++ [i]) []

/-- Lines 458 and 464-466: `tileY_D`, filled by `unshift`. -/
def tileY_D (tileMinY tileMaxY : ℚ) : List ℚ :=
  (forValues tileMinY tileMaxY).foldl (fun acc i => i :: acc) []

/-- Assignment `o[k] = v` on an object read only through property lookup; the object is its
lookup function and `none` is `undefined`. -/
def objSet (o : Str → Option ℚ) (k : Str) (v : Option ℚ) : Str → Option ℚ :=
  fun k' => if k' = k then v else o k'

/-- Lines 461 and 470-472: `tileY_R`, with `tileY_R[String(v)] = tileY_D[i]` for every
element `v` of `tileY_U` at index `i`. -/
def tileY_R (fracText : ℚ → Str) (tileMinY tileMaxY : ℚ) : Str → Option ℚ :=
  (tileY_U tileMinY tileMaxY).enum.foldl
    (fun o iv => objSet o (numberToString fracText iv.2) ((tileY_D tileMinY tileMaxY)[iv.1]?))
    (fun _ => none)

/-- Line 496: `tileY_R[String(tileY)]`. -/
def remapY (fracText : ℚ → Str) (tileMinY tileMaxY : ℚ) (tileY : ℚ) : Option ℚ :=
  tileY_R fracText tileMinY tileMaxY (numberToString fracText tileY)

/-! ### Draw loop (lines 485-509) -/

/-- What one iteration of the draw loop does: the tile whose image is requested, the canvas
offset computed for it (`y` is `none` when the remap lookup is `undefined`), and whether the
image loaded and was therefore drawn. -/
structure DrawEvent where
  item : TileRecord
  x : ℚ
  y : Option ℚ
  drawn : Bool
  deriving DecidableEq

/-- Lines 492-507: the body of the draw loop for `item`.  `loads url` tells whether
`getImage(url)` resolves to an image. -/
def drawItem (fracText : ℚ → Str) (loads : Str → Bool) (tileMinX tileMinY tileMaxY : ℚ)
    (tileResolution : ℚ) (item : TileRecord) : DrawEvent :=
  { item := item
    x := (item.tilePos.1 + tileMinX * -1) * tileResolution
    y := (remapY fracText tileMinY tileMaxY item.tilePos.2).map
      (fun tileY => (tileY + tileMinY * -1) * tileResolution)
    drawn := loads item.filePath }

/-- Line 488: the `break` test `typeof maxTiles === 'number' && i > maxTiles`; `none` is
`null`. -/
def capReached (maxTiles : Option ℚ) (i : Nat) : Bool :=
  match maxTiles with
  | some m => decide ((i : ℚ) > m)
  | none => false

/-- The draw loop from index `i` over the remaining elements of `tileInfo`. -/
def drawLoopFrom (fracText : ℚ → Str) (loads : Str → Bool) (maxTiles : Option ℚ)
    (tileMinX tileMinY tileMaxY tileResolution : ℚ) (i : Nat) :
    List TileRecord → List DrawEvent
  | [] => []
  | item :: rest =>
    if capReached maxTiles i then []
    else
      drawItem fracText loads tileMinX tileMinY tileMaxY tileResolution item
        :: drawLoopFrom fracText loads maxTiles tileMinX tileMinY tileMaxY tileResolution
            (i + 1) rest

/-- Lines 485-509: `for (let i = 0; i < tileInfo.length; i++)`. -/
def drawLoop (fracText : ℚ → Str) (loads : Str → Bool) (maxTiles : Option ℚ)
    (tileMinX tileMinY tileMaxY tileResolution : ℚ) (tileInfo : List TileRecord) :
    List DrawEvent :=
  drawLoopFrom fracText loads maxTiles tileMinX tileMinY tileMaxY tileResolution 0 tileInfo

/-- The tiles whose image was requested, in order. -/
def fetchedTiles (events : List DrawEvent) : List TileRecord :=
  events.map (fun e => e.item)

/-- The tiles that were drawn, in order. -/
def drawnTiles (events : List DrawEvent) : List TileRecord :=
  (events.filter (fun e => e.drawn)).map (fun e => e.item)

/-! ### Confirmation gate (lines 380-435) -/

/-- What can happen while the promise of lines 383-435 is pending: the interval timer fires,
or the user calls `confirmExport()` or `cancelExport()`. -/
inductive GateEvent where
  | tick
  | confirmExport
  | cancelExport
  deriving DecidableEq

/-- The variables of the gate: the remaining `timeout`, the slot `confirmed` (`none` is
`null`) and whether `resolve()` has been called. -/
structure GateState where
  timeout : ℚ
  confirmed : Option Bool
  resolved : Bool
  deriving DecidableEq

/-- Line 380 with the `timeout` option: `confirmed = null`, promise pending. -/
def GateState.init (timeout : ℚ) : GateState :=
  { timeout := timeout, confirmed := none, resolved := false }

/-- One event of the gate.  The timer callback (lines 402-416, `interval = 2`) subtracts 2
from `timeout` and resolves unless `timeout > 0 && confirmed === null`; the two handlers
(lines 425-433) only assign `confirmed`.  Once resolved the timer is cleared and both handlers
are set to `null`, so nothing changes any more. -/
def GateState.step (s : GateState) (e : GateEvent) : GateState :=
  if s.resolved then s
  else
    match e with
    | GateEvent.tick =>
      if s.timeout - 2 > 0 ∧ s.confirmed = none then
        { timeout := s.timeout - 2, confirmed := s.confirmed, resolved := false }
      else { timeout := s.timeout - 2, confirmed := s.confirmed, resolved := true }
    | GateEvent.confirmExport =>
      { timeout := s.timeout, confirmed := some true, resolved := false }
    | GateEvent.cancelExport =>
      { timeout := s.timeout, confirmed := some false, resolved := false }

/-- The gate after a sequence of events. -/
def gateRun (timeout : ℚ) (events : List GateEvent) : GateState :=
  events.foldl GateState.step (GateState.init timeout)

/-- The gate after `n` further timer ticks and no other event. -/
def gateTicks (s : GateState) (n : Nat) : GateState :=
  (List.replicate n GateEvent.tick).foldl GateState.step s

/-- The signal carried by an event: `true` for `confirmExport`, `false` for `cancelExport`. -/
def GateEvent.signal : GateEvent → Option Bool
  | GateEvent.tick => none
  | GateEvent.confirmExport => some true
  | GateEvent.cancelExport => some false

/-- The first confirm or cancel signal of a sequence of events. -/
def firstSignal (events : List GateEvent) : Option Bool :=
  events.findSome? GateEvent.signal

/-- The last confirm or cancel signal of a sequence of events. -/
def lastSignal (events : List GateEvent) : Option Bool :=
  events.reverse.findSome? GateEvent.signal

/-- The value of `confirmed` read at line 437.  With `autoStart` it is `true` (lines 395-398);
otherwise it is the slot of the gate after the events that occurred while it was pending
(the timer keeps firing after them, which leaves the slot as it is). -/
def gateDecision (autoStart : Bool) (timeout : ℚ) (events : List GateEvent) : Option Bool :=
  if autoStart then some true else (gateRun timeout events).confirmed

/-! ### The export as a whole (lines 149-562) -/

/-- The `options` argument without `dynmap`, with the defaults of lines 151-156. -/
structure ExportOptions where
  autoStart : Bool := false
  calcOnly : Bool := false
  fillColor : Str := "#000000".toList
  maxTiles : Option ℚ := none
  mode : Str := "viewed".toList
  timeout : ℚ := 20

/-- The fields of the `dynmap` object that the export reads, with the types of the
`DynmapInstance` typedef (lines 1-32); `mapZoomCurr` is the value of `dynmap.map.getZoom()`
and `mapName` is `maptype.options.prefix`. -/
structure Provider where
  mapZoomCurr : Nat
  mapZoomIn : Int
  mapZoomOut : Int
  mapName : Str
  tileSize : ℚ
  tilesDir : Str
  registeredTiles : List (Str × Str)
  worldName : Str

/-- What the host environment contributes to one run: the text of non-integer numbers,
which image requests succeed, the events that occur while the gate is pending, and whether
`dataURLtoBlob(canvas.toDataURL('image/png'))` yields a blob. -/
structure Host where
  fracText : ℚ → Str
  loads : Str → Bool
  gateEvents : List GateEvent
  blobOk : Bool

/-- How a call of `exportDynmap` ends: the promise resolves to a boolean, or an exception
escapes (`try ... finally` has no `catch`). -/
inductive Completion where
  | returned (b : Bool)
  | threw
  deriving DecidableEq

/-- The observable course of one run: how it ended, whether the promise of line 383 was
awaited, the size of the canvas if one was created (lines 449 and 475-476), and the
iterations of the draw loop. -/
structure ExportRun where
  result : Completion
  gateAwaited : Bool
  canvas : Option (ℚ × ℚ)
  draws : List DrawEvent
  deriving DecidableEq

/-- A run that ends before the gate with the given result. -/
def ExportRun.early (c : Completion) : ExportRun :=
  { result := c, gateAwaited := false, canvas := none, draws := [] }

/-- Line 351: `cWidth = (tileMaxX - tileMinX) * tileResolution`. -/
def cWidth (st : ScanState) (tileResolution : ℚ) : ℚ :=
  (st.tileMaxX - st.tileMinX) * tileResolution

/-- Line 352: `cHeight = (tileMaxY - tileMinY) * tileResolution`. -/
def cHeight (st : ScanState) (tileResolution : ℚ) : ℚ :=
  (st.tileMaxY - st.tileMinY) * tileResolution

/-- Lines 369-562, after a successful scan: the `calcOnly` and empty-list exits, the gate,
and the drawing and encoding of the canvas. -/
def exportAfterScan (h : Host) (o : ExportOptions) (p : Provider) (L : Nat)
    (st : ScanState) : ExportRun :=
  if o.calcOnly then ExportRun.early (Completion.returned true)
  else if (tileInfoForMode h.fracText o.mode L p.tilesDir p.worldName p.mapName st).length = 0
  then ExportRun.early (Completion.returned false)
  else if gateDecision o.autoStart o.timeout h.gateEvents = some true then
    { result := Completion.returned h.blobOk
      gateAwaited := true
      canvas := some (cWidth st p.tileSize, cHeight st p.tileSize)
      draws := drawLoop h.fracText h.loads o.maxTiles st.tileMinX st.tileMinY st.tileMaxY
        p.tileSize
        (tileInfoForMode h.fracText o.mode L p.tilesDir p.worldName p.mapName st) }
  else
    { result := Completion.returned true, gateAwaited := true, canvas := none, draws := [] }

/-- Lines 193-562 on a provider whose fields have the declared types.  `none` means that
`tileLevels[mapZoomCurr]` is `undefined`, a case the model does not cover. -/
def exportBody (h : Host) (o : ExportOptions) (p : Provider) : Option ExportRun :=
  match useLevel p.mapZoomIn p.mapZoomOut p.mapZoomCurr with
  | none => none
  | some level =>
    if p.tileSize = 0 then some (ExportRun.early (Completion.returned false))
    else
      match scan level.toNat p.worldName p.mapName p.registeredTiles with
      | none => some (ExportRun.early (Completion.returned false))
      | some st => some (exportAfterScan h o p level.toNat st)

/-! ### Validation of the `dynmap` object (lines 120-135 and 159-191) -/

/-- The JavaScript values a `dynmap` object is made of; an object is the list of its own
properties. -/
inductive JSVal where
  | undefined
  | null
  | bool (b : Bool)
  | num (v : ℚ)
  | str (s : Str)
  | obj (props : List (Str × JSVal))

/-- Property access `a[b]`: a `TypeError` (`none`) on `undefined` and `null`, the property
or `undefined` on an object, `undefined` on the other primitives (none of the names looked
up is a property of a boolean, number or string). -/
def JSVal.getProp (a : JSVal) (b : Str) : Option JSVal :=
  match a with
  | JSVal.undefined => none
  | JSVal.null => none
  | JSVal.obj props => some ((props.lookup b).getD JSVal.undefined)
  | _ => some JSVal.undefined

/-- The test `typeof v === 'object'`, true of objects and of `null`. -/
def JSVal.typeofObject : JSVal → Bool
  | JSVal.null => true
  | JSVal.obj _ => true
  | _ => false

/-- The truth value of `v` in a condition. -/
def JSVal.truthy : JSVal → Bool
  | JSVal.undefined => false
  | JSVal.null => false
  | JSVal.bool b => b
  | JSVal.num v => decide (v ≠ 0)
  | JSVal.str s => decide (s ≠ [])
  | JSVal.obj _ => true

/-- Whether `v` is `undefined` or `null` (line 187). -/
def JSVal.missing : JSVal → Bool
  | JSVal.undefined => true
  | JSVal.null => true
  | _ => false

/-- Line 133, the callback of `reduce`: `(a === undefined ? a : a[b])`. -/
def getObjValueStep (a : JSVal) (b : Str) : Option JSVal :=
  match a with
  | JSVal.undefined => some JSVal.undefined
  | v => v.getProp b

/-- Lines 120-135, `getObjValue(obj, path)` for a string `path`; `none` is a `TypeError`
thrown by the property access. -/
def getObjValue (obj : JSVal) (path : Str) : Option JSVal :=
  if obj.typeofObject = false then some JSVal.undefined
  else if path = [] then some obj
  else (split '.' path).foldlM getObjValueStep obj

/-- Lines 160-176: the property paths that must be present. -/
def attrs : List Str :=
  [ "maptype.options".toList,
    "maptype.options.mapzoomin".toList,
    "maptype.options.mapzoomout".toList,
    "maptype.options.prefix".toList,
    "maptype.options.tileSize".toList,
    "options.url.tiles".toList,
    "registeredTiles".toList,
    "world.name".toList ]

/-- Lines 185-191: the loop over the paths; `none` when every path is present, otherwise
how the export ends. -/
def checkAttrs (dynmap : JSVal) : List Str → Option Completion
  | [] => none
  | attr :: rest =>
    match getObjValue dynmap attr with
    | none => some Completion.threw
    | some item =>
      if item.missing then some (Completion.returned false) else checkAttrs dynmap rest

/-- Lines 178-191: the test of the `dynmap` object followed by the loop over `attrs`. -/
def validateDynmap (dynmap : JSVal) : Option Completion :=
  if dynmap.truthy = false then some (Completion.returned false)
  else checkAttrs dynmap attrs

/-- A number that is an integer. -/
def JSVal.asInt : JSVal → Option Int
  | JSVal.num v => if v.den = 1 then some v.num else none
  | _ => none

/-- A string. -/
def JSVal.asStr : JSVal → Option Str
  | JSVal.str s => some s
  | _ => none

/-- A number. -/
def JSVal.asNum : JSVal → Option ℚ
  | JSVal.num v => some v
  | _ => none

/-- The properties of an object whose values are all strings, in enumeration order. -/
def JSVal.asRegistry : JSVal → Option (List (Str × Str))
  | JSVal.obj props => props.mapM (fun kv => (JSVal.asStr kv.2).map (fun v => (kv.1, v)))
  | _ => none

/-- The property chain `v.a.b.c` for the names `[a, b, c]`; `none` is a `TypeError`. -/
def JSVal.path (v : JSVal) (names : List Str) : Option JSVal :=
  names.foldlM JSVal.getProp v

/-- The fields read at lines 194-238 when they have the types of the typedef; `none` when
one of them has another type.  `mapZoomCurr` is the value of `dynmap.map.getZoom()`. -/
def readProvider (mapZoomCurr : Nat) (dynmap : JSVal) : Option Provider :=
  ((dynmap.path ["maptype".toList, "options".toList, "mapzoomin".toList]).bind
    JSVal.asInt).bind fun (mapZoomIn : Int) =>
  ((dynmap.path ["maptype".toList, "options".toList, "mapzoomout".toList]).bind
    JSVal.asInt).bind fun (mapZoomOut : Int) =>
  ((dynmap.path ["options".toList, "url".toList, "tiles".toList]).bind
    JSVal.asStr).bind fun (tilesDir : Str) =>
  ((dynmap.path ["registeredTiles".toList]).bind
    JSVal.asRegistry).bind fun (registeredTiles : List (Str × Str)) =>
  ((dynmap.path ["world".toList, "name".toList]).bind
    JSVal.asStr).bind fun (worldName : Str) =>
  ((dynmap.path ["maptype".toList, "options".toList, "prefix".toList]).bind
    JSVal.asStr).bind fun (mapName : Str) =>
  ((dynmap.path ["maptype".toList, "options".toList, "tileSize".toList]).bind
    JSVal.asNum).bind fun (tileSize : ℚ) =>
  some
    { mapZoomCurr := mapZoomCurr, mapZoomIn := mapZoomIn, mapZoomOut := mapZoomOut,
      mapName := mapName, tileSize := tileSize, tilesDir := tilesDir,
      registeredTiles := registeredTiles, worldName := worldName }

/-- The function `exportDynmap` on a `dynmap` object: the validation, then the body on the
fields read.  `none` means that the run leaves the model: a field has a type other than the
declared one, or the zoom index is outside the table. -/
def exportDynmap (h : Host) (o : ExportOptions) (mapZoomCurr : Nat) (dynmap : JSVal) :
    Option ExportRun :=
  match validateDynmap dynmap with
  | some c => some (ExportRun.early c)
  | none => (readProvider mapZoomCurr dynmap).bind (exportBody h o)

/-! ### Sample inputs for the later stages -/

/-- The registry of the scenario with three `z`: one tile, `zzz_0_0.png`, of `world/flat`. -/
def zzzRegistry : List (Str × Str) :=
  [("t".toList, "tiles/world/flat/0_0/zzz_0_0.png".toList)]

/-- The same tile with two `z` in its name. -/
def zzRegistry : List (Str × Str) :=
  [("t".toList, "tiles/world/flat/0_0/zz_0_0.png".toList)]

/-- A registry whose only tile, of level 0, lies away from the origin: raw coordinates
`(4, 4)`. -/
def farRegistry : List (Str × Str) :=
  [("t".toList, "tiles/world/flat/0_0/4_4.png".toList)]

/-- A host in which every image loads, encoding succeeds, and the events of the gate are
given. -/
def hostWith (gateEvents : List GateEvent) : Host :=
  { fracText := fun _ => [], loads := fun _ => true, gateEvents := gateEvents, blobOk := true }

/-- A provider at viewport zoom 0 with `mapzoomin = 1` and `mapzoomout = 2`, hence at tile
level 2, for the map `world/flat` with 128-pixel tiles and the given registry. -/
def providerWith (registeredTiles : List (Str × Str)) : Provider :=
  { mapZoomCurr := 0, mapZoomIn := 1, mapZoomOut := 2, mapName := "flat".toList,
    tileSize := 128, tilesDir := "tiles/".toList, registeredTiles := registeredTiles,
    worldName := "world".toList }

/-- The `dynmap` object of `providerWith []` without the properties `registeredTiles` and
`world`, followed by the properties `extra`. -/
def dynmapWith (extra : List (Str × JSVal)) : JSVal :=
  JSVal.obj
    ([ ("maptype".toList,
          JSVal.obj
            [ ("options".toList,
                JSVal.obj
                  [ ("mapzoomin".toList, JSVal.num 1),
                    ("mapzoomout".toList, JSVal.num 2),
                    ("prefix".toList, JSVal.str "flat".toList),
                    ("tileSize".toList, JSVal.num 128) ]) ]),
        ("options".toList,
          JSVal.obj [("url".toList, JSVal.obj [("tiles".toList, JSVal.str "tiles/".toList)])]) ]
      ++ extra)

/-- The property `world: { name: 'world' }`. -/
def worldProp : Str × JSVal :=
  ("world".toList, JSVal.obj [("name".toList, JSVal.str "world".toList)])

/-- The property `registeredTiles: {}`. -/
def emptyTilesProp : Str × JSVal :=
  ("registeredTiles".toList, JSVal.obj [])

/-- A registry with one tile of `world/flat` at level 2 and one entry of another world and
map whose file name holds a single integer. -/
def badRegistry : List (Str × Str) :=
  [ ("a".toList, "tiles/world/flat/0_0/zz_4_-8.png".toList),
    ("b".toList, "tiles/nether/t/0_0/zz_1.png".toList) ]

/-! ## Theorems -/

/-! ### Loops -/

theorem forLoop_eq_map_range {α : Type} [LinearOrderedCommRing α] [FloorRing α] (hi : α) :
    ∀ (fuel : Nat) (lo : α), fuel = (⌊hi - lo⌋ + 1).toNat →
      forLoop fuel lo hi = (List.range fuel).map (fun (k : Nat) => lo + (k : α)) := by
  intro fuel
  induction fuel with
  | zero => intro lo _; simp [forLoop]
  | succ n ih =>
    intro lo h
    have h0 : 0 ≤ ⌊hi - lo⌋ := by omega
    have hle : lo ≤ hi := by
      have := Int.floor_nonneg.mp h0
      linarith
    have hn : n = (⌊hi - (lo + 1)⌋ + 1).toNat := by
      have : hi - (lo + 1) = hi - lo - 1 := by ring
      rw [this, Int.floor_sub_one]
      omega
    rw [forLoop, if_pos hle, ih (lo + 1) hn, List.range_succ_eq_map]
    simp only [List.map_cons, List.map_map, Nat.cast_zero, add_zero]
    congr 1
    apply List.map_congr_left
    intro k _
    simp only [Function.comp, Nat.cast_succ]
    ring

theorem forValues_eq_map_range {α : Type} [LinearOrderedCommRing α] [FloorRing α] (lo hi : α) :
    forValues lo hi
      = (List.range (⌊hi - lo⌋ + 1).toNat).map (fun (k : Nat) => lo + (k : α)) :=
  forLoop_eq_map_range hi _ lo rfl

/-- The loop stops because its condition fails, not because the fuel runs out: any larger
fuel gives the same iterations. -/
theorem forLoop_fuel {α : Type} [LinearOrderedCommRing α] [FloorRing α] (hi : α) :
    ∀ (fuel : Nat) (lo : α), (⌊hi - lo⌋ + 1).toNat ≤ fuel →
      forLoop fuel lo hi = forValues lo hi := by
  intro fuel
  induction fuel with
  | zero =>
    intro lo h
    have : (⌊hi - lo⌋ + 1).toNat = 0 := by omega
    simp [forValues, this]
  | succ n ih =>
    intro lo h
    by_cases hle : lo ≤ hi
    · have h0 : 0 ≤ ⌊hi - lo⌋ := Int.floor_nonneg.mpr (by linarith)
      have hfl : ⌊hi - (lo + 1)⌋ = ⌊hi - lo⌋ - 1 := by
        have : hi - (lo + 1) = hi - lo - 1 := by ring
        rw [this, Int.floor_sub_one]
      have hn : (⌊hi - (lo + 1)⌋ + 1).toNat ≤ n := by omega
      have hs : (⌊hi - lo⌋ + 1).toNat = (⌊hi - (lo + 1)⌋ + 1).toNat + 1 := by omega
      rw [forLoop, if_pos hle, ih (lo + 1) hn]
      unfold forValues
      rw [hs, forLoop, if_pos hle]
    · have hneg : ⌊hi - lo⌋ < 0 := by
        rw [Int.floor_lt]
        push_cast
        linarith [not_le.mp hle]
      have : (⌊hi - lo⌋ + 1).toNat = 0 := by omega
      rw [forLoop, if_neg hle]
      simp [forValues, this, forLoop]

theorem forValues_length {α : Type} [LinearOrderedCommRing α] [FloorRing α] (lo hi : α) :
    (forValues lo hi).length = (⌊hi - lo⌋ + 1).toNat := by
  simp [forValues_eq_map_range]

theorem mem_forValues_int (lo hi v : Int) : v ∈ forValues lo hi ↔ lo ≤ v ∧ v ≤ hi := by
  rw [forValues_eq_map_range]
  simp only [List.mem_map, List.mem_range, Int.floor_int, id]
  constructor
  · rintro ⟨k, hk, rfl⟩
    constructor <;> omega
  · rintro ⟨h1, h2⟩
    exact ⟨(v - lo).toNat, by omega, by omega⟩

/-! ### Zoom-level table -/

theorem foldl_unshift {α β : Type} (f : α → β) (l : List α) (acc : List β) :
    l.foldl (fun acc i => f i :: acc) acc = (l.map f).reverse ++ acc := by
  induction l generalizing acc with
  | nil => simp
  | cons x xs ih => simp [ih]

theorem tileLevels_eq (a b : Int) :
    tileLevels a b
      = ((List.range (b + a + 1).toNat).map
          (fun (k : Nat) => if (-a + (k : Int)) ≥ 0 then -a + (k : Int) else 0)).reverse := by
  unfold tileLevels
  rw [foldl_unshift, forValues_eq_map_range]
  simp only [List.append_nil, List.map_map, Int.floor_int, id]
  have h1 : b - a * -1 + 1 = b + a + 1 := by ring
  rw [h1]
  congr 1
  apply List.map_congr_left
  intro k _
  simp only [Function.comp]
  have h2 : a * -1 + (k : Int) = -a + k := by ring
  rw [h2]

/-- C7: for integers `a = mapzoomin ≥ 0` and `b = mapzoomout ≥ 0` the table `tileLevels` has
length `a + b + 1` and every entry is `≥ 0`. -/
theorem tileLevels_length_nonneg (a b : Int) (ha : 0 ≤ a) (hb : 0 ≤ b) :
    ((tileLevels a b).length : Int) = a + b + 1 ∧ ∀ v ∈ tileLevels a b, 0 ≤ v := by
  rw [tileLevels_eq]
  constructor
  · simp only [List.length_reverse, List.length_map, List.length_range]
    omega
  · intro v hv
    simp only [List.mem_reverse, List.mem_map, List.mem_range] at hv
    obtain ⟨k, _, rfl⟩ := hv
    split <;> omega

theorem tileLevels_length_nonneg_witness :
    (0 : Int) ≤ 1 ∧ (0 : Int) ≤ 2 ∧
      (((tileLevels 1 2).length : Int) = 1 + 2 + 1 ∧ ∀ v ∈ tileLevels 1 2, 0 ≤ v) :=
  ⟨by decide, by decide, tileLevels_length_nonneg 1 2 (by decide) (by decide)⟩

/-- C8: for integers `a = mapzoomin ≥ 0`, `b = mapzoomout ≥ 0` and every index `i` with
`0 ≤ i ≤ a + b`, `tileLevels[i] = max(0, b - i)`; in particular `useLevel` at viewport zoom 0
is `b` and at the deepest zoom index `a + b` it is 0. -/
theorem tileLevels_getElem (a b : Int) (ha : 0 ≤ a) (hb : 0 ≤ b) :
    (∀ i : Nat, (i : Int) ≤ a + b → (tileLevels a b)[i]? = some (max 0 (b - (i : Int)))) ∧
      useLevel a b 0 = some b ∧
      useLevel a b (a + b).toNat = some 0 := by
  have key : ∀ i : Nat, (i : Int) ≤ a + b →
      (tileLevels a b)[i]? = some (max 0 (b - (i : Int))) := by
    intro i hi
    rw [tileLevels_eq]
    have hlen : i < (b + a + 1).toNat := by omega
    rw [List.getElem?_reverse (by simpa using hlen)]
    simp only [List.length_map, List.length_range]
    rw [List.getElem?_map, List.getElem?_range (by omega)]
    simp only [Option.map_some', Option.some.injEq]
    have hc : (((b + a + 1).toNat - 1 - i : Nat) : Int) = b + a - i := by omega
    rw [hc]
    split
    · rw [max_eq_right (by omega)]; ring
    · rw [max_eq_left (by omega)]
  refine ⟨key, ?_, ?_⟩
  · have := key 0 (by simpa using add_nonneg ha hb)
    simpa [useLevel, max_eq_right hb] using this
  · have := key (a + b).toNat (by omega)
    rw [useLevel, this]
    have : ((a + b).toNat : Int) = a + b := by omega
    rw [this, max_eq_left (by omega)]

theorem tileLevels_getElem_witness :
    (0 : Int) ≤ 1 ∧ (0 : Int) ≤ 2 ∧
      ((∀ i : Nat, (i : Int) ≤ 1 + 2 → (tileLevels 1 2)[i]? = some (max 0 (2 - (i : Int)))) ∧
        useLevel 1 2 0 = some 2 ∧
        useLevel 1 2 ((1 : Int) + 2).toNat = some 0) :=
  ⟨by decide, by decide, tileLevels_getElem 1 2 (by decide) (by decide)⟩

/-! ### Registry scan -/

theorem rawPos_eq_none_iff (p : Str) :
    rawPos p = none ↔ (matchInts (segFromEnd p 1)).length ≠ 2 := by
  unfold rawPos
  split
  · next h => simp [h]
  · next h =>
    simp only [true_iff]
    intro hlen
    match hm : matchInts (segFromEnd p 1), hlen with
    | [a, b], _ => exact h a b hm

theorem scanEntry_eq_none_iff (L : Nat) (w m : Str) (st : ScanState) (p : Str) :
    scanEntry L w m st p = none ↔ ¬ wellFormedPath p := by
  unfold scanEntry wellFormedPath
  by_cases h5 : 5 ≤ (split '/' p).length
  · rw [if_pos h5]
    cases hr : rawPos p with
    | none =>
      have := (rawPos_eq_none_iff p).mp hr
      simp [this]
    | some xy =>
      have hne : rawPos p ≠ none := by simp [hr]
      have := (not_congr (rawPos_eq_none_iff p)).mp hne
      obtain ⟨x, y⟩ := xy
      simp only [ne_eq, not_not] at this
      by_cases hu : isUse L w m p <;> simp [hu, this, h5]
  · simp [h5]

theorem scanEntry_eq_some (L : Nat) (w m : Str) (st st' : ScanState) (p : Str)
    (h : scanEntry L w m st p = some st') :
    ∃ x y : Int, rawPos p = some (x, y) ∧
      st' = if isUse L w m p then
          st.accept p ((x : ℚ) / tilePosOffset L) ((y : ℚ) / tilePosOffset L)
        else st := by
  unfold scanEntry at h
  by_cases h5 : 5 ≤ (split '/' p).length
  · rw [if_pos h5] at h
    cases hr : rawPos p with
    | none => simp [hr] at h
    | some xy =>
      obtain ⟨x, y⟩ := xy
      refine ⟨x, y, rfl, ?_⟩
      simp only [hr] at h
      by_cases hu : isUse L w m p
      · simp only [hu, if_true, Option.some.injEq] at h ⊢
        exact h.symm
      · simp only [hu, if_false, Option.some.injEq] at h ⊢
        exact h.symm
  · simp [h5] at h

theorem scanFrom_nil (L : Nat) (w m : Str) (st : ScanState) :
    scanFrom L w m st [] = some st := rfl

theorem scanFrom_cons (L : Nat) (w m : Str) (st : ScanState) (kv : Str × Str)
    (reg : List (Str × Str)) :
    scanFrom L w m st (kv :: reg)
      = (scanEntry L w m st kv.2).bind (fun st' => scanFrom L w m st' reg) := by
  simp only [scanFrom, List.foldlM_cons]
  rfl

theorem scanFrom_eq_none_iff (L : Nat) (w m : Str) (reg : List (Str × Str)) :
    ∀ st : ScanState, scanFrom L w m st reg = none ↔ ∃ e ∈ reg, ¬ wellFormedPath e.2 := by
  induction reg with
  | nil => intro st; simp [scanFrom_nil]
  | cons kv reg ih =>
    intro st
    rw [scanFrom_cons]
    cases he : scanEntry L w m st kv.2 with
    | none =>
      have := (scanEntry_eq_none_iff L w m st kv.2).mp he
      simp [this]
    | some st' =>
      have hne : scanEntry L w m st kv.2 ≠ none := by simp [he]
      have hwf := not_not.mp ((not_congr (scanEntry_eq_none_iff L w m st kv.2)).mp hne)
      simp only [Option.some_bind, ih st', List.mem_cons, exists_eq_or_imp, hwf,
        not_true_eq_false, false_or]

/-- The scan from `st` keeps the records of `st` and appends, in order, the registry values
that satisfy `isUse`. -/
theorem scanFrom_filePaths (L : Nat) (w m : Str) (reg : List (Str × Str)) :
    ∀ st st' : ScanState, scanFrom L w m st reg = some st' →
      st'.tileInfo.map (fun r => r.filePath)
        = st.tileInfo.map (fun r => r.filePath)
          ++ (reg.map (fun e => e.2)).filter (fun p => decide (isUse L w m p)) := by
  induction reg with
  | nil =>
    intro st st' h
    simp only [scanFrom_nil, Option.some.injEq] at h
    simp [h]
  | cons kv reg ih =>
    intro st st' h
    rw [scanFrom_cons] at h
    cases he : scanEntry L w m st kv.2 with
    | none => simp [he] at h
    | some st1 =>
      rw [he, Option.some_bind] at h
      obtain ⟨x, y, _, hst1⟩ := scanEntry_eq_some L w m st st1 kv.2 he
      rw [ih st1 st' h, hst1]
      by_cases hu : isUse L w m kv.2
      · simp [hu, ScanState.accept]
      · simp [hu]

/-- C1: when every registry value is well-formed, the scan succeeds and its tile list holds
exactly the registry values, in enumeration order, whose derived level (`tileLevelN` of the
file name), world name (4th segment from the end) and map name (3rd from the end) equal the
active ones; the other entries are skipped without failing. -/
theorem scan_tileInfo_filter (L : Nat) (w m : Str) (reg : List (Str × Str))
    (hwf : ∀ e ∈ reg, wellFormedPath e.2) :
    ∃ st, scan L w m reg = some st ∧
      st.tileInfo.map (fun r => r.filePath)
        = (reg.map (fun e => e.2)).filter (fun p =>
            decide (tileLevelN (segFromEnd p 1) = L ∧ segFromEnd p 4 = w ∧
              segFromEnd p 3 = m)) := by
  cases hs : scan L w m reg with
  | none =>
    obtain ⟨e, he, hbad⟩ := (scanFrom_eq_none_iff L w m reg ScanState.init).mp hs
    exact absurd (hwf e he) hbad
  | some st =>
    refine ⟨st, rfl, ?_⟩
    have := scanFrom_filePaths L w m reg ScanState.init st hs
    simpa [ScanState.init, isUse] using this

theorem scan_tileInfo_filter_witness :
    (∀ e ∈ sampleRegistry, wellFormedPath e.2) ∧
      ∃ st, scan 2 "world".toList "flat".toList sampleRegistry = some st ∧
        st.tileInfo.map (fun r => r.filePath)
          = (sampleRegistry.map (fun e => e.2)).filter (fun p =>
              decide (tileLevelN (segFromEnd p 1) = 2 ∧ segFromEnd p 4 = "world".toList ∧
                segFromEnd p 3 = "flat".toList)) :=
  ⟨by decide, scan_tileInfo_filter 2 "world".toList "flat".toList sampleRegistry (by decide)⟩

/-- The scan loop fails (`none`) exactly when some registry value has fewer than 5 segments
or a file name without exactly two signed-integer runs, whether or not that entry matches
the active level, world and map. -/
theorem scan_eq_none_iff (L : Nat) (w m : Str) (reg : List (Str × Str)) :
    scan L w m reg = none ↔
      ∃ e ∈ reg, ¬ (5 ≤ (split '/' e.2).length ∧
        (matchInts (segFromEnd e.2 1)).length = 2) :=
  scanFrom_eq_none_iff L w m reg ScanState.init

theorem accept_covers (st : ScanState) (p : Str) (x y : ℚ)
    (h : ∀ r ∈ st.tileInfo, st.tileMinX ≤ r.tilePos.1 ∧ r.tilePos.1 ≤ st.tileMaxX ∧
      st.tileMinY ≤ r.tilePos.2 ∧ r.tilePos.2 ≤ st.tileMaxY) :
    ∀ r ∈ (st.accept p x y).tileInfo,
      (st.accept p x y).tileMinX ≤ r.tilePos.1 ∧ r.tilePos.1 ≤ (st.accept p x y).tileMaxX ∧
      (st.accept p x y).tileMinY ≤ r.tilePos.2 ∧ r.tilePos.2 ≤ (st.accept p x y).tileMaxY := by
  intro r hr
  simp only [ScanState.accept, List.mem_append, List.mem_singleton] at hr ⊢
  rcases hr with hr | rfl
  · obtain ⟨h1, h2, h3, h4⟩ := h r hr
    refine ⟨?_, ?_, ?_, ?_⟩ <;> split_ifs <;> linarith
  · refine ⟨?_, ?_, ?_, ?_⟩ <;> split_ifs <;> simp only [] <;> linarith

theorem scanFrom_covers (L : Nat) (w m : Str) (reg : List (Str × Str)) :
    ∀ st st' : ScanState, scanFrom L w m st reg = some st' →
      (∀ r ∈ st.tileInfo, st.tileMinX ≤ r.tilePos.1 ∧ r.tilePos.1 ≤ st.tileMaxX ∧
        st.tileMinY ≤ r.tilePos.2 ∧ r.tilePos.2 ≤ st.tileMaxY) →
      ∀ r ∈ st'.tileInfo, st'.tileMinX ≤ r.tilePos.1 ∧ r.tilePos.1 ≤ st'.tileMaxX ∧
        st'.tileMinY ≤ r.tilePos.2 ∧ r.tilePos.2 ≤ st'.tileMaxY := by
  induction reg with
  | nil =>
    intro st st' h hinv
    simp only [scanFrom_nil, Option.some.injEq] at h
    exact h ▸ hinv
  | cons kv reg ih =>
    intro st st' h hinv
    rw [scanFrom_cons] at h
    cases he : scanEntry L w m st kv.2 with
    | none => simp [he] at h
    | some st1 =>
      rw [he, Option.some_bind] at h
      obtain ⟨x, y, _, hst1⟩ := scanEntry_eq_some L w m st st1 kv.2 he
      apply ih st1 st' h
      rw [hst1]
      by_cases hu : isUse L w m kv.2
      · simp only [hu, if_true]
        exact accept_covers st kv.2 _ _ hinv
      · simpa only [hu, if_false] using hinv

/-- While no record has been accepted the four extremes keep their initial value. -/
theorem scanFrom_empty_box (L : Nat) (w m : Str) (reg : List (Str × Str)) :
    ∀ st st' : ScanState, scanFrom L w m st reg = some st' → st'.tileInfo = [] →
      st'.tileMinX = st.tileMinX ∧ st'.tileMaxX = st.tileMaxX ∧
        st'.tileMinY = st.tileMinY ∧ st'.tileMaxY = st.tileMaxY := by
  induction reg with
  | nil =>
    intro st st' h _
    simp only [scanFrom_nil, Option.some.injEq] at h
    subst h
    exact ⟨rfl, rfl, rfl, rfl⟩
  | cons kv reg ih =>
    intro st st' h hnil
    rw [scanFrom_cons] at h
    cases he : scanEntry L w m st kv.2 with
    | none => simp [he] at h
    | some st1 =>
      rw [he, Option.some_bind] at h
      obtain ⟨x, y, _, hst1⟩ := scanEntry_eq_some L w m st st1 kv.2 he
      by_cases hu : isUse L w m kv.2
      · exfalso
        have hp := scanFrom_filePaths L w m reg st1 st' h
        rw [hnil, hst1] at hp
        simp [hu, ScanState.accept] at hp
      · simp only [hu, if_false] at hst1
        subst hst1
        exact ih st1 st' h hnil

/-- C3: after a successful scan the box `(tileMinX, tileMaxX, tileMinY, tileMaxY)` contains
the `tilePos` of every accepted record, and when no record is accepted it is still
`(0, 0, 0, 0)`. -/
theorem scan_bounding_box (L : Nat) (w m : Str) (reg : List (Str × Str)) (st : ScanState)
    (h : scan L w m reg = some st) :
    (∀ r ∈ st.tileInfo, st.tileMinX ≤ r.tilePos.1 ∧ r.tilePos.1 ≤ st.tileMaxX ∧
        st.tileMinY ≤ r.tilePos.2 ∧ r.tilePos.2 ≤ st.tileMaxY) ∧
      (st.tileInfo = [] →
        (st.tileMinX, st.tileMaxX, st.tileMinY, st.tileMaxY) = (0, 0, 0, 0)) := by
  constructor
  · exact scanFrom_covers L w m reg ScanState.init st h (by simp [ScanState.init])
  · intro hnil
    obtain ⟨h1, h2, h3, h4⟩ := scanFrom_empty_box L w m reg ScanState.init st h hnil
    simp [h1, h2, h3, h4, ScanState.init]

theorem scan_bounding_box_witness :
    scan 2 "world".toList "flat".toList sampleRegistry = some sampleScanState ∧
      ((∀ r ∈ sampleScanState.tileInfo,
          sampleScanState.tileMinX ≤ r.tilePos.1 ∧ r.tilePos.1 ≤ sampleScanState.tileMaxX ∧
          sampleScanState.tileMinY ≤ r.tilePos.2 ∧ r.tilePos.2 ≤ sampleScanState.tileMaxY) ∧
        (sampleScanState.tileInfo = [] →
          (sampleScanState.tileMinX, sampleScanState.tileMaxX, sampleScanState.tileMinY,
            sampleScanState.tileMaxY) = (0, 0, 0, 0))) :=
  ⟨by decide!, scan_bounding_box 2 "world".toList "flat".toList sampleRegistry sampleScanState
    (by decide!)⟩

theorem scanFrom_tilePos (L : Nat) (w m : Str) (reg : List (Str × Str)) :
    ∀ st st' : ScanState, scanFrom L w m st reg = some st' →
      (∀ r ∈ st.tileInfo, ∃ x y : Int, rawPos r.filePath = some (x, y) ∧
        r.tilePos = ((x : ℚ) / tilePosOffset L, (y : ℚ) / tilePosOffset L)) →
      ∀ r ∈ st'.tileInfo, ∃ x y : Int, rawPos r.filePath = some (x, y) ∧
        r.tilePos = ((x : ℚ) / tilePosOffset L, (y : ℚ) / tilePosOffset L) := by
  induction reg with
  | nil =>
    intro st st' h hinv
    simp only [scanFrom_nil, Option.some.injEq] at h
    exact h ▸ hinv
  | cons kv reg ih =>
    intro st st' h hinv
    rw [scanFrom_cons] at h
    cases he : scanEntry L w m st kv.2 with
    | none => simp [he] at h
    | some st1 =>
      rw [he, Option.some_bind] at h
      obtain ⟨x, y, hraw, hst1⟩ := scanEntry_eq_some L w m st st1 kv.2 he
      apply ih st1 st' h
      rw [hst1]
      by_cases hu : isUse L w m kv.2
      · simp only [hu, if_true, ScanState.accept, List.mem_append, List.mem_singleton]
        rintro r (hr | rfl)
        · exact hinv r hr
        · exact ⟨x, y, hraw, rfl⟩
      · simpa only [hu, if_false] using hinv

theorem cast_div_pow_two (L : Nat) (x : Int) (hx : (2 : Int) ^ L ∣ x) :
    (x : ℚ) / tilePosOffset L = ((x / 2 ^ L : Int) : ℚ) := by
  unfold tilePosOffset
  rw [Int.cast_div hx (by positivity)]
  push_cast
  rfl

/-- C9: for every record accepted by the scan at level `L` whose raw file-name coordinates
`(rawX, rawY)` are multiples of `2^L`, the stored `tilePos` is `(rawX / 2^L, rawY / 2^L)`,
both integers, and multiplying by `2^L` again, as corner mode does for `fileX` and `fileY`,
returns `(rawX, rawY)`. -/
theorem scan_tilePos_roundtrip (L : Nat) (w m : Str) (reg : List (Str × Str))
    (st : ScanState) (h : scan L w m reg = some st) (r : TileRecord)
    (hr : r ∈ st.tileInfo) (rawX rawY : Int) (hraw : rawPos r.filePath = some (rawX, rawY))
    (hx : (2 : Int) ^ L ∣ rawX) (hy : (2 : Int) ^ L ∣ rawY) :
    r.tilePos = (((rawX / 2 ^ L : Int) : ℚ), ((rawY / 2 ^ L : Int) : ℚ)) ∧
      fileCoord L r.tilePos.1 = rawX ∧ fileCoord L r.tilePos.2 = rawY := by
  obtain ⟨x, y, hraw', hpos⟩ :=
    scanFrom_tilePos L w m reg ScanState.init st h (by simp [ScanState.init]) r hr
  rw [hraw] at hraw'
  simp only [Option.some.injEq, Prod.mk.injEq] at hraw'
  obtain ⟨rfl, rfl⟩ := hraw'
  have hne : tilePosOffset L ≠ 0 := by unfold tilePosOffset; positivity
  refine ⟨?_, ?_, ?_⟩
  · rw [hpos, cast_div_pow_two L rawX hx, cast_div_pow_two L rawY hy]
  · rw [hpos]
    simp only [fileCoord]
    field_simp
  · rw [hpos]
    simp only [fileCoord]
    field_simp

theorem scan_tilePos_roundtrip_witness :
    scan 2 "world".toList "flat".toList sampleRegistry = some sampleScanState ∧
      sampleRecord ∈ sampleScanState.tileInfo ∧
      rawPos sampleRecord.filePath = some (4, -8) ∧
      (2 : Int) ^ 2 ∣ 4 ∧ (2 : Int) ^ 2 ∣ -8 ∧
      (sampleRecord.tilePos = ((((4 : Int) / 2 ^ 2 : Int) : ℚ), (((-8 : Int) / 2 ^ 2 : Int) : ℚ)) ∧
        fileCoord 2 sampleRecord.tilePos.1 = ((4 : Int) : ℚ) ∧
        fileCoord 2 sampleRecord.tilePos.2 = ((-8 : Int) : ℚ)) :=
  ⟨by decide!, by decide!, by decide, by decide, by decide,
    scan_tilePos_roundtrip 2 "world".toList "flat".toList sampleRegistry sampleScanState
      (by decide!) sampleRecord (by decide!) 4 (-8) (by decide) (by decide) (by decide)⟩

/-! ### Corner mode -/

theorem forValues_intCast (lo hi : Int) :
    forValues (lo : ℚ) (hi : ℚ) = (forValues lo hi).map (fun (v : Int) => (v : ℚ)) := by
  rw [forValues_eq_map_range, forValues_eq_map_range, ← Int.cast_sub, Int.floor_intCast]
  simp only [Int.floor_int, id, List.map_map]
  apply List.map_congr_left
  intro k _
  simp

theorem nodup_forValues_int (lo hi : Int) : (forValues lo hi).Nodup := by
  rw [forValues_eq_map_range]
  apply List.Nodup.map _ (List.nodup_range _)
  intro a b hab
  simpa using hab

theorem forValues_int_length (lo hi : Int) (h : lo ≤ hi) :
    ((forValues lo hi).length : Int) = hi - lo + 1 := by
  rw [forValues_length]
  simp only [Int.floor_int, id]
  omega

theorem cornerGrid_tilePos (fracText : ℚ → Str) (L : Nat) (tilesDir w m : Str)
    (minX maxX minY maxY : ℚ) :
    (cornerGrid fracText L tilesDir w m minX maxX minY maxY).map (fun r => r.tilePos)
      = (forValues minX maxX) ×ˢ (forValues minY maxY) := by
  simp only [cornerGrid, List.map_flatMap, List.map_map]
  rfl

theorem numberToString_intCast (fracText : ℚ → Str) (n : Int) :
    numberToString fracText (n : ℚ) = intToString n := by
  simp [numberToString]

theorem fileCoord_intCast (L : Nat) (t : Int) :
    fileCoord L (t : ℚ) = ((t * 2 ^ L : Int) : ℚ) := by
  simp [fileCoord, tilePosOffset]

theorem floor_intCast_div_32 (z : Int) : ⌊((z : Int) : ℚ) / 32⌋ = Int.fdiv z 32 := by
  have h : ((z : Int) : ℚ) / 32 = (z : ℚ) / ((32 : ℕ) : ℚ) := by norm_num
  rw [h, Rat.floor_intCast_div_natCast, Int.fdiv_eq_ediv _ (by decide)]
  rfl

/-- C4: in corner mode, for an integer box with `minX ≤ maxX` and `minY ≤ maxY`, the tile list
is the rebuilt grid whatever the scan had collected; it has
`(maxX - minX + 1) * (maxY - minY + 1)` records, each `tilePos` is an integer point of
`[minX, maxX] × [minY, maxY]`, no two records share a `tilePos`, and the list is not empty. -/
theorem corner_grid_cells (fracText : ℚ → Str) (L : Nat) (tilesDir w m : Str)
    (scanned : List TileRecord) (minX maxX minY maxY : Int)
    (hX : minX ≤ maxX) (hY : minY ≤ maxY) (T : List TileRecord)
    (hT : T = tileInfoForMode fracText "corner".toList L tilesDir w m
      { tileInfo := scanned, tileMinX := minX, tileMaxX := maxX,
        tileMinY := minY, tileMaxY := maxY }) :
    T = cornerGrid fracText L tilesDir w m minX maxX minY maxY ∧
      (T.length : Int) = (maxX - minX + 1) * (maxY - minY + 1) ∧
      (∀ r ∈ T, ∃ x y : Int, r.tilePos = ((x : ℚ), (y : ℚ)) ∧
        minX ≤ x ∧ x ≤ maxX ∧ minY ≤ y ∧ y ≤ maxY) ∧
      (T.map (fun r => r.tilePos)).Nodup ∧
      T ≠ [] := by
  have hgrid : T = cornerGrid fracText L tilesDir w m minX maxX minY maxY := by
    rw [hT]
    simp [tileInfoForMode]
  have hpos : T.map (fun r => r.tilePos)
      = ((forValues minX maxX).map (fun (v : Int) => (v : ℚ)))
          ×ˢ ((forValues minY maxY).map (fun (v : Int) => (v : ℚ))) := by
    rw [hgrid, cornerGrid_tilePos, forValues_intCast, forValues_intCast]
  have hlen : (T.length : Int) = (maxX - minX + 1) * (maxY - minY + 1) := by
    have : T.length = (T.map (fun r => r.tilePos)).length := by simp
    rw [this, hpos, List.length_product, List.length_map, List.length_map]
    push_cast
    rw [forValues_int_length _ _ hX, forValues_int_length _ _ hY]
  refine ⟨hgrid, hlen, ?_, ?_, ?_⟩
  · intro r hr
    have hmem : r.tilePos ∈ T.map (fun r => r.tilePos) := List.mem_map_of_mem _ hr
    rw [hpos] at hmem
    rcases hp : r.tilePos with ⟨px, py⟩
    rw [hp, List.mem_product] at hmem
    simp only [List.mem_map] at hmem
    obtain ⟨⟨x, hx, rfl⟩, ⟨y, hy, rfl⟩⟩ := hmem
    rw [mem_forValues_int] at hx hy
    exact ⟨x, y, rfl, hx.1, hx.2, hy.1, hy.2⟩
  · rw [hpos]
    apply List.Nodup.product
    · exact List.Nodup.map (fun a b h => by simpa using h) (nodup_forValues_int _ _)
    · exact List.Nodup.map (fun a b h => by simpa using h) (nodup_forValues_int _ _)
  · intro hnil
    rw [hnil] at hlen
    have h1 : 0 < maxX - minX + 1 := by omega
    have h2 : 0 < maxY - minY + 1 := by omega
    have := mul_pos h1 h2
    simp only [List.length_nil, Nat.cast_zero] at hlen
    omega

theorem corner_grid_cells_witness :
    (-1 : Int) ≤ 0 ∧ (2 : Int) ≤ 3 ∧
      (cornerGrid (fun _ => []) 1 "tiles/".toList "world".toList "flat".toList
          ((-1 : Int) : ℚ) ((0 : Int) : ℚ) ((2 : Int) : ℚ) ((3 : Int) : ℚ)
        = cornerGrid (fun _ => []) 1 "tiles/".toList "world".toList "flat".toList
            ((-1 : Int) : ℚ) ((0 : Int) : ℚ) ((2 : Int) : ℚ) ((3 : Int) : ℚ) ∧
        ((cornerGrid (fun _ => []) 1 "tiles/".toList "world".toList "flat".toList
          ((-1 : Int) : ℚ) ((0 : Int) : ℚ) ((2 : Int) : ℚ) ((3 : Int) : ℚ)).length : Int)
          = (0 - -1 + 1) * (3 - 2 + 1) ∧
        (∀ r ∈ cornerGrid (fun _ => []) 1 "tiles/".toList "world".toList "flat".toList
            ((-1 : Int) : ℚ) ((0 : Int) : ℚ) ((2 : Int) : ℚ) ((3 : Int) : ℚ),
          ∃ x y : Int, r.tilePos = ((x : ℚ), (y : ℚ)) ∧
            -1 ≤ x ∧ x ≤ 0 ∧ 2 ≤ y ∧ y ≤ 3) ∧
        ((cornerGrid (fun _ => []) 1 "tiles/".toList "world".toList "flat".toList
          ((-1 : Int) : ℚ) ((0 : Int) : ℚ) ((2 : Int) : ℚ) ((3 : Int) : ℚ)).map
            (fun r => r.tilePos)).Nodup ∧
        cornerGrid (fun _ => []) 1 "tiles/".toList "world".toList "flat".toList
          ((-1 : Int) : ℚ) ((0 : Int) : ℚ) ((2 : Int) : ℚ) ((3 : Int) : ℚ) ≠ []) :=
  ⟨by decide, by decide,
    corner_grid_cells (fun _ => []) 1 "tiles/".toList "world".toList "flat".toList
      [sampleRecord] (-1) 0 2 3 (by decide) (by decide) _ (by simp [tileInfoForMode])⟩

/-- C5: in corner mode the record of the integer cell `(tileX, tileY)` has
`tilePos = (tileX, tileY)` and `filePath = tilesDir + useWorld + '/' + useMap + '/' + folder +
'/' + fileName`, where `fileX = tileX * 2^L`, `fileY = tileY * 2^L` and the folder is the
decimal text of `floor(fileX / 32)`, `_` and the decimal text of `floor(fileY / 32)`, the
floor rounding towards minus infinity. -/
theorem cornerRecord_filePath (fracText : ℚ → Str) (L : Nat) (tilesDir w m : Str)
    (tileX tileY : Int) :
    cornerRecord fracText L tilesDir w m (tileX : ℚ) (tileY : ℚ)
      = { filePath :=
            tilesDir ++ w ++ ['/'] ++ m ++ ['/']
              ++ (intToString (Int.fdiv (tileX * 2 ^ L) 32) ++ ['_']
                ++ intToString (Int.fdiv (tileY * 2 ^ L) 32))
              ++ ['/']
              ++ cornerFileName fracText L ((tileX * 2 ^ L : Int) : ℚ)
                  ((tileY * 2 ^ L : Int) : ℚ)
          tilePos := ((tileX : ℚ), (tileY : ℚ)) } ∧
      32 * Int.fdiv (tileX * 2 ^ L) 32 ≤ tileX * 2 ^ L ∧
      tileX * 2 ^ L < 32 * Int.fdiv (tileX * 2 ^ L) 32 + 32 ∧
      32 * Int.fdiv (tileY * 2 ^ L) 32 ≤ tileY * 2 ^ L ∧
      tileY * 2 ^ L < 32 * Int.fdiv (tileY * 2 ^ L) 32 + 32 := by
  refine ⟨?_, ?_, ?_, ?_, ?_⟩
  · simp only [cornerRecord, cornerFileDir, fileCoord_intCast, floor_intCast_div_32,
      numberToString_intCast]
  all_goals
    rw [Int.fdiv_eq_ediv _ (by decide)]
    omega

/-! ### Draw loop -/

theorem fetchedTiles_drawLoopFrom_some (fracText : ℚ → Str) (loads : Str → Bool) (m : Nat)
    (minX minY maxY res : ℚ) (l : List TileRecord) :
    ∀ i : Nat, i ≤ m + 1 →
      fetchedTiles (drawLoopFrom fracText loads (some (m : ℚ)) minX minY maxY res i l)
        = l.take (m + 1 - i) := by
  induction l with
  | nil => intro i _; simp [drawLoopFrom, fetchedTiles]
  | cons item rest ih =>
    intro i hi
    by_cases hc : i ≤ m
    · have hcap : capReached (some (m : ℚ)) i = false := by
        simp only [capReached, gt_iff_lt, Nat.cast_lt, decide_eq_false_iff_not, not_lt]
        exact hc
      have hs : m + 1 - i = (m + 1 - (i + 1)) + 1 := by omega
      have := ih (i + 1) (by omega)
      simp only [fetchedTiles] at this
      simp only [drawLoopFrom, hcap, fetchedTiles, List.map_cons, hs, List.take_succ_cons,
        this, drawItem, Bool.false_eq_true, if_false]
    · have hcap : capReached (some (m : ℚ)) i = true := by
        simp only [capReached, gt_iff_lt, Nat.cast_lt, decide_eq_true_eq]
        omega
      have hz : m + 1 - i = 0 := by omega
      simp [drawLoopFrom, hcap, fetchedTiles, hz]

theorem drawLoopFrom_none (fracText : ℚ → Str) (loads : Str → Bool)
    (minX minY maxY res : ℚ) (l : List TileRecord) :
    ∀ i : Nat, drawLoopFrom fracText loads none minX minY maxY res i l
      = l.map (drawItem fracText loads minX minY maxY res) := by
  induction l with
  | nil => intro i; simp [drawLoopFrom]
  | cons item rest ih => intro i; simp [drawLoopFrom, capReached, ih]

theorem drawnTiles_eq_filter (fracText : ℚ → Str) (loads : Str → Bool) (maxTiles : Option ℚ)
    (minX minY maxY res : ℚ) (l : List TileRecord) :
    ∀ i : Nat,
      drawnTiles (drawLoopFrom fracText loads maxTiles minX minY maxY res i l)
        = (fetchedTiles (drawLoopFrom fracText loads maxTiles minX minY maxY res i l)).filter
            (fun r => loads r.filePath) := by
  induction l with
  | nil => intro i; simp [drawLoopFrom, drawnTiles, fetchedTiles]
  | cons item rest ih =>
    intro i
    by_cases hc : capReached maxTiles i = true
    · simp [drawLoopFrom, hc, drawnTiles, fetchedTiles]
    · have := ih (i + 1)
      simp only [drawnTiles, fetchedTiles] at this
      by_cases hl : loads item.filePath = true
      · simp [drawLoopFrom, hc, drawnTiles, fetchedTiles, drawItem, hl, this]
      · simp [drawLoopFrom, hc, drawnTiles, fetchedTiles, drawItem, hl, this]

/-- C10: with a numeric cap `maxTiles = m`, `m` a non-negative integer, the draw loop requests
the images of exactly the first `min(n, m + 1)` tiles of the list, in order, and draws those
of them whose image loads (all `min(n, m + 1)` when every image loads); with `maxTiles` null
it processes all `n` tiles. -/
theorem drawLoop_cap (fracText : ℚ → Str) (loads : Str → Bool) (m : Nat)
    (minX minY maxY res : ℚ) (tileInfo : List TileRecord) :
    fetchedTiles (drawLoop fracText loads (some (m : ℚ)) minX minY maxY res tileInfo)
        = tileInfo.take (min tileInfo.length (m + 1)) ∧
      (fetchedTiles (drawLoop fracText loads (some (m : ℚ)) minX minY maxY res
        tileInfo)).length = min tileInfo.length (m + 1) ∧
      drawnTiles (drawLoop fracText loads (some (m : ℚ)) minX minY maxY res tileInfo)
        = (tileInfo.take (min tileInfo.length (m + 1))).filter (fun r => loads r.filePath) ∧
      drawnTiles (drawLoop fracText (fun _ => true) (some (m : ℚ)) minX minY maxY res tileInfo)
        = tileInfo.take (min tileInfo.length (m + 1)) ∧
      fetchedTiles (drawLoop fracText loads none minX minY maxY res tileInfo) = tileInfo ∧
      drawnTiles (drawLoop fracText (fun _ => true) none minX minY maxY res tileInfo)
        = tileInfo := by
  have htake : ∀ lds : Str → Bool,
      fetchedTiles (drawLoop fracText lds (some (m : ℚ)) minX minY maxY res tileInfo)
        = tileInfo.take (min tileInfo.length (m + 1)) := by
    intro lds
    have := fetchedTiles_drawLoopFrom_some fracText lds m minX minY maxY res tileInfo 0
      (by omega)
    rw [drawLoop, this, Nat.sub_zero]
    by_cases hle : tileInfo.length ≤ m + 1
    · rw [min_eq_left hle, List.take_of_length_le hle, List.take_of_length_le (by simp)]
    · rw [min_eq_right (by omega)]
  have hnone : ∀ lds : Str → Bool,
      fetchedTiles (drawLoop fracText lds none minX minY maxY res tileInfo) = tileInfo := by
    intro lds
    simp [drawLoop, drawLoopFrom_none, fetchedTiles, drawItem, Function.comp_def]
  refine ⟨htake loads, ?_, ?_, ?_, hnone loads, ?_⟩
  · rw [htake loads, List.length_take]
    omega
  · rw [drawLoop, drawnTiles_eq_filter, ← drawLoop, htake loads]
  · rw [drawLoop, drawnTiles_eq_filter, ← drawLoop, htake]
    simp
  · rw [drawLoop, drawnTiles_eq_filter, ← drawLoop, hnone]
    simp

/-! ### Decimal text of integers -/

theorem digitChar_spec :
    ∀ d < 10, (Nat.digitChar d).isDigit = true ∧ (Nat.digitChar d).toNat - 48 = d := by
  decide

theorem toDigitsCore_append (fuel : Nat) :
    ∀ (n : Nat) (ds : List Char),
      Nat.toDigitsCore 10 fuel n ds = Nat.toDigitsCore 10 fuel n [] ++ ds := by
  induction fuel with
  | zero => intro n ds; simp [Nat.toDigitsCore]
  | succ f ih =>
    intro n ds
    simp only [Nat.toDigitsCore]
    by_cases h : n / 10 = 0
    · simp [h]
    · simp only [h, if_false]
      rw [ih (n / 10) (Nat.digitChar (n % 10) :: ds), ih (n / 10) [Nat.digitChar (n % 10)]]
      simp

theorem parseDigits_append_singleton (xs : Str) (c : Char) :
    parseDigits (xs ++ [c]) = 10 * parseDigits xs + (c.toNat - 48) := by
  simp [parseDigits, List.foldl_append]

theorem toDigitsCore_spec (fuel : Nat) :
    ∀ n : Nat, n < fuel →
      parseDigits (Nat.toDigitsCore 10 fuel n []) = n ∧
        (∀ c ∈ Nat.toDigitsCore 10 fuel n [], c.isDigit = true) ∧
        Nat.toDigitsCore 10 fuel n [] ≠ [] := by
  induction fuel with
  | zero => intro n h; omega
  | succ f ih =>
    intro n hn
    have hd := digitChar_spec (n % 10) (Nat.mod_lt _ (by decide))
    simp only [Nat.toDigitsCore]
    by_cases h : n / 10 = 0
    · simp only [h, if_true]
      refine ⟨?_, ?_, by simp⟩
      · simp only [parseDigits, List.foldl_cons, List.foldl_nil, hd.2]
        omega
      · intro c hc
        simp only [List.mem_singleton] at hc
        rw [hc]
        exact hd.1
    · simp only [h, if_false]
      rw [toDigitsCore_append]
      obtain ⟨h1, h2, _⟩ := ih (n / 10) (by omega)
      refine ⟨?_, ?_, by simp⟩
      · rw [parseDigits_append_singleton, h1, hd.2]
        omega
      · intro c hc
        simp only [List.mem_append, List.mem_singleton] at hc
        rcases hc with hc | hc
        · exact h2 c hc
        · rw [hc]; exact hd.1

theorem takeWhile_isDigit_of_all (ds : Str) (h : ∀ c ∈ ds, c.isDigit = true) :
    ds.takeWhile Char.isDigit = ds := by
  induction ds with
  | nil => rfl
  | cons c cs ih =>
    have hc := h c (List.mem_cons_self _ _)
    simp only [List.takeWhile_cons, hc, if_true]
    rw [ih (fun d hd => h d (List.mem_cons_of_mem _ hd))]

/-- `parseInt` reads back the decimal text of any integer. -/
theorem parseInt_intToString (n : Int) : parseInt (intToString n) = n := by
  obtain ⟨h1, h2, h3⟩ := toDigitsCore_spec (n.natAbs + 1) n.natAbs (by omega)
  have htd : Nat.toDigits 10 n.natAbs = Nat.toDigitsCore 10 (n.natAbs + 1) n.natAbs [] := rfl
  unfold intToString
  by_cases hneg : n < 0
  · rw [if_pos hneg, htd]
    simp only [parseInt]
    rw [takeWhile_isDigit_of_all _ h2, h1]
    omega
  · rw [if_neg hneg, htd]
    cases hds : Nat.toDigitsCore 10 (n.natAbs + 1) n.natAbs [] with
    | nil => exact absurd hds h3
    | cons c cs =>
      rw [hds] at h1 h2
      have hc : c ≠ '-' := by
        intro hc
        have := h2 c (List.mem_cons_self _ _)
        rw [hc] at this
        exact absurd this (by decide)
      unfold parseInt
      split
      · next ds heq =>
        simp only [List.cons.injEq] at heq
        exact absurd heq.1 hc
      · rw [takeWhile_isDigit_of_all _ h2, h1]
        omega

theorem intToString_injective : Function.Injective intToString := by
  intro a b h
  rw [← parseInt_intToString a, ← parseInt_intToString b, h]

/-! ### Vertical remap -/

theorem foldl_push {α : Type} (l : List α) (acc : List α) :
    l.foldl (fun acc i => acc ++ [i]) acc = acc ++ l := by
  induction l generalizing acc with
  | nil => simp
  | cons x xs ih => simp [ih]

theorem tileY_U_eq (minY maxY : ℚ) : tileY_U minY maxY = forValues minY maxY := by
  simp [tileY_U, foldl_push]

theorem tileY_D_eq (minY maxY : ℚ) : tileY_D minY maxY = (forValues minY maxY).reverse := by
  have := foldl_unshift (fun (i : ℚ) => i) (forValues minY maxY) []
  simp only [List.map_id', List.append_nil] at this
  exact this

theorem foldl_objSet_of_not_mem (l : List (Str × Option ℚ)) (k : Str)
    (h : k ∉ l.map Prod.fst) :
    ∀ o : Str → Option ℚ, l.foldl (fun o kv => objSet o kv.1 kv.2) o k = o k := by
  induction l with
  | nil => intro o; rfl
  | cons kv rest ih =>
    intro o
    simp only [List.map_cons, List.mem_cons, not_or] at h
    rw [List.foldl_cons, ih h.2]
    simp [objSet, h.1]

/-- Reading a key that was assigned exactly once in a sequence of assignments gives the
assigned value. -/
theorem foldl_objSet_of_mem (l : List (Str × Option ℚ)) (hnd : (l.map Prod.fst).Nodup)
    (k : Str) (v : Option ℚ) (hmem : (k, v) ∈ l) :
    ∀ o : Str → Option ℚ, l.foldl (fun o kv => objSet o kv.1 kv.2) o k = v := by
  induction l with
  | nil => simp at hmem
  | cons kv rest ih =>
    intro o
    simp only [List.map_cons, List.nodup_cons] at hnd
    rw [List.foldl_cons]
    rcases List.mem_cons.mp hmem with heq | hin
    · subst heq
      rw [foldl_objSet_of_not_mem rest k hnd.1]
      simp [objSet]
    · exact ih hnd.2 hin _

theorem tileY_R_of_getElem (fracText : ℚ → Str) (minY maxY : ℚ)
    (hnd : ((forValues minY maxY).map (numberToString fracText)).Nodup)
    (i : Nat) (y : ℚ) (hy : (forValues minY maxY)[i]? = some y) :
    remapY fracText minY maxY y = (forValues minY maxY).reverse[i]? := by
  unfold remapY tileY_R
  rw [tileY_U_eq, tileY_D_eq]
  have hfold := List.foldl_map
    (fun (iv : Nat × ℚ) =>
      (numberToString fracText iv.2, (forValues minY maxY).reverse[iv.1]?))
    (fun (o : Str → Option ℚ) (kv : Str × Option ℚ) => objSet o kv.1 kv.2)
    (forValues minY maxY).enum (fun _ => none)
  simp only at hfold
  rw [← hfold]
  apply foldl_objSet_of_mem
  · have hk : List.map Prod.fst
        (List.map (fun (iv : Nat × ℚ) =>
          (numberToString fracText iv.2, (forValues minY maxY).reverse[iv.1]?))
          (forValues minY maxY).enum)
        = List.map (numberToString fracText) (forValues minY maxY) := by
      rw [List.map_map]
      conv_rhs => rw [← List.enum_map_snd (forValues minY maxY)]
      rw [List.map_map]
      rfl
    rw [hk]
    exact hnd
  · rw [List.mem_map]
    exact ⟨(i, y), List.mk_mem_enum_iff_getElem?.mpr hy, rfl⟩

theorem remapY_int (fracText : ℚ → Str) (minY maxY Y : Int) (h1 : minY ≤ Y) (h2 : Y ≤ maxY) :
    remapY fracText (minY : ℚ) (maxY : ℚ) (Y : ℚ) = some ((minY + maxY - Y : Int) : ℚ) := by
  have hnd : ((forValues (minY : ℚ) (maxY : ℚ)).map (numberToString fracText)).Nodup := by
    rw [forValues_intCast, List.map_map]
    apply List.Nodup.map _ (nodup_forValues_int _ _)
    intro a b hab
    simp only [Function.comp, numberToString_intCast] at hab
    exact intToString_injective hab
  have hlen : (forValues minY maxY).length = (maxY - minY + 1).toNat := by
    rw [forValues_length]; rfl
  have hget : ∀ k : Nat, k < (maxY - minY + 1).toNat →
      (forValues (minY : ℚ) (maxY : ℚ))[k]? = some ((minY + (k : Int) : Int) : ℚ) := by
    intro k hk
    rw [forValues_intCast, List.getElem?_map, forValues_eq_map_range, List.getElem?_map,
      List.getElem?_range (by simpa using hk)]
    rfl
  have hi : (Y - minY).toNat < (maxY - minY + 1).toNat := by omega
  have hy := hget (Y - minY).toNat hi
  have hcast : (minY + ((Y - minY).toNat : Int) : Int) = Y := by omega
  rw [hcast] at hy
  rw [tileY_R_of_getElem fracText _ _ hnd (Y - minY).toNat _ hy]
  have hlenq : (forValues (minY : ℚ) (maxY : ℚ)).length = (maxY - minY + 1).toNat := by
    rw [forValues_intCast, List.length_map, hlen]
  rw [List.getElem?_reverse (by rw [hlenq]; exact hi), hlenq,
    hget _ (by omega)]
  congr 2
  omega

/-- C6: the table `tileY_R` built from the integer range `[minY, maxY]` is an involution on
it: for every integer `Y` with `minY ≤ Y ≤ maxY` the table has an entry for `Y`, the entry is
`minY + maxY - Y`, it lies in `[minY, maxY]`, and remapping it again gives `Y`. -/
theorem remapY_involution (fracText : ℚ → Str) (minY maxY Y : Int)
    (h1 : minY ≤ Y) (h2 : Y ≤ maxY) :
    remapY fracText (minY : ℚ) (maxY : ℚ) (Y : ℚ) = some ((minY + maxY - Y : Int) : ℚ) ∧
      minY ≤ minY + maxY - Y ∧ minY + maxY - Y ≤ maxY ∧
      remapY fracText (minY : ℚ) (maxY : ℚ) ((minY + maxY - Y : Int) : ℚ)
        = some (Y : ℚ) := by
  refine ⟨remapY_int fracText minY maxY Y h1 h2, by omega, by omega, ?_⟩
  rw [remapY_int fracText minY maxY (minY + maxY - Y) (by omega) (by omega)]
  congr 2
  omega

theorem remapY_involution_witness :
    (-2 : Int) ≤ 1 ∧ (1 : Int) ≤ 3 ∧
      (remapY (fun _ => []) ((-2 : Int) : ℚ) ((3 : Int) : ℚ) ((1 : Int) : ℚ)
          = some ((-2 + 3 - 1 : Int) : ℚ) ∧
        (-2 : Int) ≤ -2 + 3 - 1 ∧ (-2 : Int) + 3 - 1 ≤ 3 ∧
        remapY (fun _ => []) ((-2 : Int) : ℚ) ((3 : Int) : ℚ) ((-2 + 3 - 1 : Int) : ℚ)
          = some ((1 : Int) : ℚ)) :=
  ⟨by decide, by decide, remapY_involution (fun _ => []) (-2) 3 1 (by decide) (by decide)⟩

/-! ### Scenarios of the scan -/

/-- C14 (code at the failing input): for the registry whose only accepted tile has grid
coordinates `(4, 4)`, the scan keeps `tileMinX = 0` and `tileMinY = 0`, the initial values,
so the box is `[0, 4] × [0, 4]` and not the minimal rectangle `[4, 4] × [4, 4]`. -/
theorem scan_box_not_minimal :
    ∃ st, scan 0 "world".toList "flat".toList farRegistry = some st ∧
      st.tileInfo.map (fun r => r.tilePos) = [(4, 4)] ∧
      (st.tileMinX, st.tileMaxX, st.tileMinY, st.tileMaxY) = (0, 4, 0, 4) ∧
      st.tileMinX ≠ 4 ∧ st.tileMinY ≠ 4 :=
  ⟨{ tileInfo := [{ filePath := "tiles/world/flat/0_0/4_4.png".toList, tilePos := (4, 4) }]
     tileMinX := 0, tileMaxX := 4, tileMinY := 0, tileMaxY := 4 },
    by decide!, by decide!, by decide!, by decide!, by decide!⟩

/-- C15 (claim as stated fails): at active level 2 the scan of the registry holding
`tiles/world/flat/0_0/zzz_0_0.png` succeeds with an empty tile list: the record is discarded,
not accepted. -/
theorem scan_zzz_level2_discarded :
    tileLevelN (segFromEnd "tiles/world/flat/0_0/zzz_0_0.png".toList 1) ≠ 2 ∧
      scan 2 "world".toList "flat".toList zzzRegistry = some ScanState.init ∧
      ScanState.init.tileInfo = [] := by
  decide!

/-- C15 (amended): the file name `zzz_0_0.png` has a run of three `z`, so its derived level is
3; the scan accepts the record at active level 3, where the offset is 8, with
`tilePos = (0, 0)`.  At active level 2, offset 4, the record accepted with `tilePos = (0, 0)`
is the one named `zz_0_0.png`. -/
theorem scan_zzz_level3_accepted :
    tileLevelN (segFromEnd "tiles/world/flat/0_0/zzz_0_0.png".toList 1) = 3 ∧
      tilePosOffset 3 = 8 ∧
      scan 3 "world".toList "flat".toList zzzRegistry
        = some { tileInfo :=
                   [{ filePath := "tiles/world/flat/0_0/zzz_0_0.png".toList,
                      tilePos := ((0 : Int) / tilePosOffset 3, (0 : Int) / tilePosOffset 3) }]
                 tileMinX := 0, tileMaxX := 0, tileMinY := 0, tileMaxY := 0 } ∧
      tilePosOffset 2 = 4 ∧
      scan 2 "world".toList "flat".toList zzRegistry
        = some { tileInfo :=
                   [{ filePath := "tiles/world/flat/0_0/zz_0_0.png".toList,
                      tilePos := ((0 : Int) / tilePosOffset 2, (0 : Int) / tilePosOffset 2) }]
                 tileMinX := 0, tileMaxX := 0, tileMinY := 0, tileMaxY := 0 } ∧
      ((0 : Int) / tilePosOffset 2, (0 : Int) / tilePosOffset 2) = ((0 : ℚ), (0 : ℚ)) := by
  decide!

/-! ### Corner-mode file name -/

theorem flatten_replicate_singleton (n : Nat) (c : Char) :
    (List.replicate n [c]).flatten = List.replicate n c := by
  induction n with
  | zero => rfl
  | succ k ih => simp [List.replicate_succ, ih]

theorem padStart_underscore (L : Nat) :
    padStart ['_'] (L + 1) ['z'] = List.replicate L 'z' ++ ['_'] := by
  unfold padStart
  by_cases hL : L = 0
  · subst hL
    simp
  · have h1 : ¬ (L + 1 ≤ ['_'].length ∨ ['z'] = ([] : Str)) := by
      simp only [List.length_singleton, reduceCtorEq, or_false]
      omega
    rw [if_neg h1]
    simp only [List.length_singleton, Nat.add_sub_cancel, flatten_replicate_singleton]
    rw [List.take_of_length_le (by simp)]

/-- C16 (claim as stated fails): at level 1 the file name of the cell `(1, 1)` is `z_2_2`,
with an underscore between the `z` run and the text of `fileX`; it is not `z2_2`. -/
theorem cornerFileName_level1_underscore :
    cornerFileName (fun _ => []) 1 (fileCoord 1 1) (fileCoord 1 1) = "z_2_2".toList ∧
      cornerFileName (fun _ => []) 1 (fileCoord 1 1) (fileCoord 1 1)
        ≠ List.replicate 1 'z' ++ (intToString 2 ++ ['_'] ++ intToString 2) := by
  decide!

theorem cornerFileName_intCast (fracText : ℚ → Str) (L : Nat) (tileX tileY : Int) :
    cornerFileName fracText L (fileCoord L (tileX : ℚ)) (fileCoord L (tileY : ℚ))
      = (if L = 0 then [] else List.replicate L 'z' ++ ['_'])
          ++ (intToString (tileX * 2 ^ L) ++ ['_'] ++ intToString (tileY * 2 ^ L)) := by
  unfold cornerFileName
  rw [fileCoord_intCast, fileCoord_intCast, numberToString_intCast, numberToString_intCast,
    padStart_underscore]
  by_cases hL : L = 0
  · simp [hL]
  · have : L > 0 := Nat.pos_of_ne_zero hL
    simp [hL, this]

/-- C16 (amended): in corner mode, for every level `L` and integer cell `(tileX, tileY)`, the
synthesized file name is, when `L > 0`, `z` repeated `L` times followed by an underscore
(nothing when `L` is 0), then the decimal text of `fileX`, an underscore and the decimal text
of `fileY`. -/
theorem cornerFileName_eq (fracText : ℚ → Str) (L : Nat) (tileX tileY : Int) :
    cornerFileName fracText L (fileCoord L (tileX : ℚ)) (fileCoord L (tileY : ℚ))
      = (if L = 0 then [] else List.replicate L 'z' ++ ['_'])
          ++ (intToString (tileX * 2 ^ L) ++ ['_'] ++ intToString (tileY * 2 ^ L)) :=
  cornerFileName_intCast fracText L tileX tileY

/-! ### Confirmation gate -/

theorem step_of_resolved (s : GateState) (e : GateEvent) (h : s.resolved = true) :
    s.step e = s := by
  simp [GateState.step, h]

theorem foldl_step_of_resolved (events : List GateEvent) :
    ∀ s : GateState, s.resolved = true → events.foldl GateState.step s = s := by
  induction events with
  | nil => intro s _; rfl
  | cons e es ih =>
    intro s h
    rw [List.foldl_cons, step_of_resolved s e h]
    exact ih s h

theorem gateRun_append (t : ℚ) (pre post : List GateEvent) :
    gateRun t (pre ++ post) = post.foldl GateState.step (gateRun t pre) := by
  simp [gateRun, List.foldl_append]

theorem gateRun_snoc (t : ℚ) (pre : List GateEvent) (e : GateEvent) :
    gateRun t (pre ++ [e]) = (gateRun t pre).step e := by
  simp [gateRun_append]

theorem lastSignal_snoc (pre : List GateEvent) (e : GateEvent) :
    lastSignal (pre ++ [e]) = (e.signal).or (lastSignal pre) := by
  unfold lastSignal
  rw [List.reverse_append, List.reverse_singleton, List.singleton_append,
    List.findSome?_cons]
  cases e.signal <;> rfl

theorem resolved_of_step_unresolved (s : GateState) (e : GateEvent)
    (h : (s.step e).resolved = false) : s.resolved = false := by
  by_contra hs
  have hs' : s.resolved = true := by simpa using hs
  rw [step_of_resolved s e hs'] at h
  rw [h] at hs'
  exact absurd hs' (by decide)

/-- While the gate is pending, `confirmed` holds the last signal received so far. -/
theorem gateRun_confirmed_of_pending (t : ℚ) (pre : List GateEvent) :
    (gateRun t pre).resolved = false → (gateRun t pre).confirmed = lastSignal pre := by
  induction pre using List.reverseRecOn with
  | nil => intro _; rfl
  | append_singleton pre e ih =>
    intro h
    rw [gateRun_snoc] at h ⊢
    have hpre := resolved_of_step_unresolved _ e h
    have hc := ih hpre
    rw [lastSignal_snoc]
    cases e with
    | tick =>
      simp only [GateState.step, hpre, Bool.false_eq_true, if_false] at h ⊢
      split_ifs <;> simp [GateEvent.signal, hc]
    | confirmExport => simp [GateState.step, hpre, GateEvent.signal]
    | cancelExport => simp [GateState.step, hpre, GateEvent.signal]

theorem gateRun_ticks (t : ℚ) (n : Nat) :
    (gateRun t (List.replicate n GateEvent.tick)).confirmed = none ∧
      ((gateRun t (List.replicate n GateEvent.tick)).resolved = false →
        (gateRun t (List.replicate n GateEvent.tick)).timeout = t - 2 * n) ∧
      ((gateRun t (List.replicate n GateEvent.tick)).resolved = true ↔
        1 ≤ n ∧ t ≤ 2 * n) := by
  induction n with
  | zero => simp [gateRun, GateState.init]
  | succ k ih =>
    obtain ⟨hc, ht, hr⟩ := ih
    rw [List.replicate_succ', gateRun_snoc]
    by_cases hres : (gateRun t (List.replicate k GateEvent.tick)).resolved = true
    · rw [step_of_resolved _ _ hres]
      obtain ⟨h1, h2⟩ := hr.mp hres
      refine ⟨hc, fun h => absurd hres (by simp [h]), ?_⟩
      simp only [hres, true_iff]
      refine ⟨by omega, ?_⟩
      push_cast
      linarith
    · have hres' : (gateRun t (List.replicate k GateEvent.tick)).resolved = false := by
        simpa using hres
      have hto := ht hres'
      simp only [GateState.step, hres', Bool.false_eq_true, if_false, hc, and_true, hto]
      by_cases hpos : t - 2 * (k : ℚ) - 2 > 0
      · simp only [hpos, if_true, true_and, Bool.false_eq_true, false_iff, not_and, not_le,
          forall_true_left]
        refine ⟨?_, ?_⟩
        · push_cast; ring
        · intro _
          push_cast
          linarith
      · simp only [hpos, if_false, true_and]
        refine ⟨fun h => absurd h (by decide), ?_⟩
        simp only [true_iff]
        refine ⟨by omega, ?_⟩
        push_cast
        linarith [not_lt.mp hpos]

/-- C17 (claim as stated fails): after `confirmExport()` alone the gate is still pending,
so it does not resolve at the signal; and after `confirmExport()`, `cancelExport()` and one
timer tick it has resolved with `confirmed = false`, the later signal, although the first
signal was a confirmation. -/
theorem gate_later_signal_overrides :
    (gateRun 20 [GateEvent.confirmExport]).resolved = false ∧
      firstSignal [GateEvent.confirmExport, GateEvent.cancelExport, GateEvent.tick]
        = some true ∧
      (gateRun 20 [GateEvent.confirmExport, GateEvent.cancelExport,
        GateEvent.tick]).resolved = true ∧
      (gateRun 20 [GateEvent.confirmExport, GateEvent.cancelExport,
        GateEvent.tick]).confirmed = some false ∧
      gateDecision false 20 [GateEvent.confirmExport, GateEvent.cancelExport,
        GateEvent.tick] ≠ firstSignal [GateEvent.confirmExport, GateEvent.cancelExport,
          GateEvent.tick] := by
  decide!

/-- C17 (amended): for every event sequence, a signal only records itself in `confirmed` and
never resolves the gate; while the gate is pending `confirmed` is the last signal received;
the gate resolves at a timer tick, namely the first tick at which a signal has been received
or the countdown has reached zero or less, and the outcome is the last signal received before
that tick; after resolution no event changes the state; with no signal at all the gate
resolves, with `confirmed` still `null`, exactly when a tick brings the countdown to zero or
below. -/
theorem gate_outcome (t : ℚ) (pre : List GateEvent)
    (hpending : (gateRun t pre).resolved = false) :
    (∀ e : GateEvent, e ≠ GateEvent.tick →
        (gateRun t (pre ++ [e])).resolved = false ∧
          (gateRun t (pre ++ [e])).confirmed = e.signal) ∧
      (gateRun t pre).confirmed = lastSignal pre ∧
      (gateRun t (pre ++ [GateEvent.tick])).confirmed = lastSignal pre ∧
      ((gateRun t (pre ++ [GateEvent.tick])).resolved = true ↔
        (lastSignal pre ≠ none ∨ (gateRun t pre).timeout - 2 ≤ 0)) ∧
      (∀ post : List GateEvent, (gateRun t (pre ++ [GateEvent.tick])).resolved = true →
        gateRun t (pre ++ [GateEvent.tick] ++ post) = gateRun t (pre ++ [GateEvent.tick])) ∧
      (∀ n : Nat, (gateRun t (List.replicate n GateEvent.tick)).confirmed = none ∧
        ((gateRun t (List.replicate n GateEvent.tick)).resolved = true ↔
          1 ≤ n ∧ t ≤ 2 * n)) := by
  have hc := gateRun_confirmed_of_pending t pre hpending
  refine ⟨?_, hc, ?_, ?_, ?_, ?_⟩
  · intro e he
    rw [gateRun_snoc]
    cases e with
    | tick => exact absurd rfl he
    | confirmExport => simp [GateState.step, hpending, GateEvent.signal]
    | cancelExport => simp [GateState.step, hpending, GateEvent.signal]
  · rw [gateRun_snoc]
    simp only [GateState.step, hpending, Bool.false_eq_true, if_false]
    split_ifs <;> exact hc
  · rw [gateRun_snoc]
    simp only [GateState.step, hpending, Bool.false_eq_true, if_false, hc]
    by_cases h1 : (gateRun t pre).timeout - 2 > 0 ∧ lastSignal pre = none
    · simp only [h1, and_self, if_true, Bool.false_eq_true, ne_eq, not_true_eq_false,
        false_or, false_iff, not_le]
    · simp only [h1, if_false, true_iff]
      by_cases h2 : lastSignal pre = none
      · right
        have : ¬ (gateRun t pre).timeout - 2 > 0 := fun h => h1 ⟨h, h2⟩
        exact not_lt.mp this
      · left; exact h2
  · intro post hres
    rw [gateRun_append t (pre ++ [GateEvent.tick]) post]
    exact foldl_step_of_resolved post _ hres
  · intro n
    exact ⟨(gateRun_ticks t n).1, (gateRun_ticks t n).2.2⟩

theorem gate_outcome_witness :
    (gateRun 20 [GateEvent.confirmExport, GateEvent.cancelExport]).resolved = false ∧
      (gateRun 20 [GateEvent.confirmExport, GateEvent.cancelExport]).confirmed
        = lastSignal [GateEvent.confirmExport, GateEvent.cancelExport] ∧
      (gateRun 20 ([GateEvent.confirmExport, GateEvent.cancelExport]
        ++ [GateEvent.tick])).confirmed = some false :=
  ⟨by decide!,
    (gate_outcome 20 [GateEvent.confirmExport, GateEvent.cancelExport] (by decide!)).2.1,
    by
      rw [(gate_outcome 20 [GateEvent.confirmExport, GateEvent.cancelExport]
        (by decide!)).2.2.1]
      decide⟩

/-- The timer alone always resolves the gate, and never touches `confirmed`: whatever events
have occurred, finitely many further ticks resolve it with the same `confirmed`. -/
theorem gate_resolves (s : GateState) :
    ∃ n : Nat, (gateTicks s n).resolved = true ∧
      ∀ k : Nat, (gateTicks s k).confirmed = s.confirmed := by
  have hstate : ∀ k : Nat, (gateTicks s k).confirmed = s.confirmed ∧
      ((gateTicks s k).resolved = false → (gateTicks s k).timeout = s.timeout - 2 * k) := by
    intro k
    induction k with
    | zero => simp [gateTicks]
    | succ k ih =>
      obtain ⟨hc, ht⟩ := ih
      have hsnoc : gateTicks s (k + 1) = (gateTicks s k).step GateEvent.tick := by
        simp [gateTicks, List.replicate_succ', List.foldl_append]
      rw [hsnoc]
      by_cases hres : (gateTicks s k).resolved = true
      · rw [step_of_resolved _ _ hres]
        exact ⟨hc, fun h => absurd hres (by simp [h])⟩
      · have hres' : (gateTicks s k).resolved = false := by simpa using hres
        have hto := ht hres'
        simp only [GateState.step, hres', Bool.false_eq_true, if_false]
        split_ifs
        · refine ⟨hc, fun _ => ?_⟩
          simp only [hto]
          push_cast; ring
        · exact ⟨hc, fun h => absurd h (by decide)⟩
  obtain ⟨n, hn⟩ := exists_nat_ge (s.timeout / 2)
  refine ⟨n + 1, ?_, fun k => (hstate k).1⟩
  have hsnoc : gateTicks s (n + 1) = (gateTicks s n).step GateEvent.tick := by
    simp [gateTicks, List.replicate_succ', List.foldl_append]
  rw [hsnoc]
  by_cases hres : (gateTicks s n).resolved = true
  · rw [step_of_resolved _ _ hres]; exact hres
  · have hres' : (gateTicks s n).resolved = false := by simpa using hres
    have hto := (hstate n).2 hres'
    simp only [GateState.step, hres', Bool.false_eq_true, if_false]
    have hneg : ¬ ((gateTicks s n).timeout - 2 > 0 ∧ (gateTicks s n).confirmed = none) := by
      rintro ⟨h1, _⟩
      rw [hto] at h1
      have : s.timeout ≤ 2 * (n : ℚ) := by linarith [(div_le_iff₀ (by norm_num : (0:ℚ) < 2)).mp hn]
      linarith
    rw [if_neg hneg]

/-! ### The export as a whole -/

/-- C2: for every provider whose zoom index is in the table and whose tile size is not 0,
the registry scan fails exactly when some registry value has fewer than 5 segments or a file
name without exactly two signed-integer runs, whether or not that entry matches the active
level, world and map; when it fails the whole export ends with `false`, before the gate, any
canvas and any drawing; and a registry of well-formed values never makes the scan fail: the
export goes on with the state the scan produced. -/
theorem scan_abort_export_false (h : Host) (o : ExportOptions) (p : Provider) (level : Int)
    (hl : useLevel p.mapZoomIn p.mapZoomOut p.mapZoomCurr = some level)
    (hts : p.tileSize ≠ 0) :
    (scan level.toNat p.worldName p.mapName p.registeredTiles = none ↔
        ∃ e ∈ p.registeredTiles, ¬ (5 ≤ (split '/' e.2).length ∧
          (matchInts (segFromEnd e.2 1)).length = 2)) ∧
      ((∃ e ∈ p.registeredTiles, ¬ (5 ≤ (split '/' e.2).length ∧
          (matchInts (segFromEnd e.2 1)).length = 2)) →
        exportBody h o p
          = some { result := Completion.returned false, gateAwaited := false,
                   canvas := none, draws := [] }) ∧
      ((∀ e ∈ p.registeredTiles, 5 ≤ (split '/' e.2).length ∧
          (matchInts (segFromEnd e.2 1)).length = 2) →
        ∃ st, scan level.toNat p.worldName p.mapName p.registeredTiles = some st ∧
          exportBody h o p = some (exportAfterScan h o p level.toNat st)) := by
  have hiff := scanFrom_eq_none_iff level.toNat p.worldName p.mapName p.registeredTiles
    ScanState.init
  refine ⟨hiff, ?_, ?_⟩
  · intro hbad
    have hnone : scan level.toNat p.worldName p.mapName p.registeredTiles = none :=
      hiff.mpr hbad
    simp only [exportBody, hl, hts, if_false, hnone, ExportRun.early]
  · intro hwf
    cases hs : scan level.toNat p.worldName p.mapName p.registeredTiles with
    | none =>
      obtain ⟨e, he, hbad⟩ := hiff.mp hs
      exact absurd (hwf e he) hbad
    | some st =>
      refine ⟨st, rfl, ?_⟩
      simp only [exportBody, hl, hts, if_false, hs]

theorem scan_abort_export_false_witness :
    useLevel (providerWith badRegistry).mapZoomIn (providerWith badRegistry).mapZoomOut
        (providerWith badRegistry).mapZoomCurr = some 2 ∧
      (providerWith badRegistry).tileSize ≠ 0 ∧
      (∃ e ∈ (providerWith badRegistry).registeredTiles,
        ¬ (5 ≤ (split '/' e.2).length ∧ (matchInts (segFromEnd e.2 1)).length = 2)) ∧
      ¬ isUse 2 "world".toList "flat".toList "tiles/nether/t/0_0/zz_1.png".toList ∧
      exportBody (hostWith []) { autoStart := true } (providerWith badRegistry)
        = some { result := Completion.returned false, gateAwaited := false,
                 canvas := none, draws := [] } :=
  ⟨by decide, by decide!,
    ⟨("b".toList, "tiles/nether/t/0_0/zz_1.png".toList), by decide, by decide⟩,
    by decide,
    (scan_abort_export_false (hostWith []) { autoStart := true } (providerWith badRegistry) 2
      (by decide) (by decide!)).2.1
      ⟨("b".toList, "tiles/nether/t/0_0/zz_1.png".toList), by decide, by decide⟩⟩

/-- C11 (claim as stated fails): for a complete `dynmap` object with an empty registry, in
the default mode `viewed` with `calcOnly` false, the export ends with `false`, not `true`. -/
theorem export_empty_registry_false :
    exportDynmap (hostWith []) {} 0 (dynmapWith [emptyTilesProp, worldProp])
        = some (ExportRun.early (Completion.returned false)) ∧
      exportBody (hostWith []) {} (providerWith [])
        = some (ExportRun.early (Completion.returned false)) ∧
      (ExportRun.early (Completion.returned false)).result ≠ Completion.returned true := by
  decide!

/-- C11 (amended): for every provider whose zoom index is in the table, whose tile size is
not 0 and whose registry scan succeeds without accepting a record, in mode `viewed` with
`calcOnly` false, `exportDynmap` ends with `false` at the empty-list test of lines 375-378:
no confirmation gate is awaited, no canvas is created and nothing is drawn. -/
theorem export_empty_list (h : Host) (o : ExportOptions) (p : Provider) (level : Int)
    (st : ScanState)
    (hl : useLevel p.mapZoomIn p.mapZoomOut p.mapZoomCurr = some level)
    (hts : p.tileSize ≠ 0)
    (hscan : scan level.toNat p.worldName p.mapName p.registeredTiles = some st)
    (hnone : st.tileInfo = []) (hmode : o.mode = "viewed".toList)
    (hcalc : o.calcOnly = false) :
    exportBody h o p
      = some { result := Completion.returned false, gateAwaited := false, canvas := none,
               draws := [] } := by
  have hm : ¬ (o.mode = "corner".toList) := by
    rw [hmode]; decide
  simp only [exportBody, hl, hts, if_false, hscan, exportAfterScan, hcalc, tileInfoForMode,
    hm, hnone, List.length_nil, if_true, ExportRun.early, Bool.false_eq_true]

theorem export_empty_list_witness :
    useLevel (providerWith zzzRegistry).mapZoomIn (providerWith zzzRegistry).mapZoomOut
        (providerWith zzzRegistry).mapZoomCurr = some 2 ∧
      (providerWith zzzRegistry).tileSize ≠ 0 ∧
      scan 2 "world".toList "flat".toList zzzRegistry = some ScanState.init ∧
      exportBody (hostWith []) {} (providerWith zzzRegistry)
        = some { result := Completion.returned false, gateAwaited := false, canvas := none,
                 draws := [] } :=
  ⟨by decide, by decide!, by decide!,
    export_empty_list (hostWith []) {} (providerWith zzzRegistry) 2 ScanState.init
      (by decide) (by decide!) (by decide!) rfl rfl rfl⟩

/-- C12: for every provider whose zoom index is in the table, whose tile size is not 0 and
whose registry scan succeeds: with `calcOnly` true the export ends with `true` before the
gate; with `calcOnly` false, a non-empty final tile list and no `autoStart`, if the gate ends
with `confirmed` equal to `false` (explicit cancel) or still `null` (timeout), the export ends
with `true`, no canvas is created and no tile is fetched or drawn. -/
theorem export_cancel_or_calcOnly (h : Host) (o : ExportOptions) (p : Provider) (level : Int)
    (st : ScanState)
    (hl : useLevel p.mapZoomIn p.mapZoomOut p.mapZoomCurr = some level)
    (hts : p.tileSize ≠ 0)
    (hscan : scan level.toNat p.worldName p.mapName p.registeredTiles = some st) :
    (o.calcOnly = true →
        exportBody h o p
          = some { result := Completion.returned true, gateAwaited := false, canvas := none,
                   draws := [] }) ∧
      (o.calcOnly = false →
        tileInfoForMode h.fracText o.mode level.toNat p.tilesDir p.worldName p.mapName st
          ≠ [] →
        o.autoStart = false →
        ((gateRun o.timeout h.gateEvents).confirmed = some false ∨
          (gateRun o.timeout h.gateEvents).confirmed = none) →
        exportBody h o p
          = some { result := Completion.returned true, gateAwaited := true, canvas := none,
                   draws := [] }) := by
  constructor
  · intro hcalc
    simp only [exportBody, hl, hts, if_false, hscan, exportAfterScan, hcalc, if_true,
      ExportRun.early]
  · intro hcalc hne hauto hgate
    have hlen : ¬ ((tileInfoForMode h.fracText o.mode level.toNat p.tilesDir p.worldName
        p.mapName st).length = 0) := by
      rw [List.length_eq_zero]; exact hne
    have hdec : ¬ (gateDecision o.autoStart o.timeout h.gateEvents = some true) := by
      simp only [gateDecision, hauto, Bool.false_eq_true, if_false]
      rcases hgate with hg | hg <;> rw [hg] <;> simp
    simp only [exportBody, hl, hts, if_false, hscan, exportAfterScan, hcalc, hlen, hdec,
      Bool.false_eq_true]

theorem export_cancel_or_calcOnly_witness :
    useLevel (providerWith sampleRegistry).mapZoomIn (providerWith sampleRegistry).mapZoomOut
        (providerWith sampleRegistry).mapZoomCurr = some 2 ∧
      (providerWith sampleRegistry).tileSize ≠ 0 ∧
      scan 2 "world".toList "flat".toList sampleRegistry = some sampleScanState ∧
      exportBody (hostWith []) { calcOnly := true } (providerWith sampleRegistry)
        = some { result := Completion.returned true, gateAwaited := false, canvas := none,
                 draws := [] } ∧
      exportBody (hostWith [GateEvent.cancelExport, GateEvent.tick]) {}
          (providerWith sampleRegistry)
        = some { result := Completion.returned true, gateAwaited := true, canvas := none,
                 draws := [] } ∧
      exportBody (hostWith (List.replicate 10 GateEvent.tick)) {}
          (providerWith sampleRegistry)
        = some { result := Completion.returned true, gateAwaited := true, canvas := none,
                 draws := [] } :=
  ⟨by decide, by decide!, by decide!,
    (export_cancel_or_calcOnly (hostWith []) { calcOnly := true }
      (providerWith sampleRegistry) 2 sampleScanState (by decide) (by decide!)
      (by decide!)).1 rfl,
    (export_cancel_or_calcOnly (hostWith [GateEvent.cancelExport, GateEvent.tick]) {}
      (providerWith sampleRegistry) 2 sampleScanState (by decide) (by decide!)
      (by decide!)).2 rfl (by decide!) rfl (Or.inl (by decide!)),
    (export_cancel_or_calcOnly (hostWith (List.replicate 10 GateEvent.tick)) {}
      (providerWith sampleRegistry) 2 sampleScanState (by decide) (by decide!)
      (by decide!)).2 rfl (by decide!) rfl (Or.inr (by decide!))⟩

/-- C18: for every provider whose scan succeeds with state `st`, the canvas dimensions are
`cWidth = (tileMaxX - tileMinX) * tileSize` and `cHeight = (tileMaxY - tileMinY) * tileSize`;
whenever a run creates a canvas these are its width and height, and a run with `calcOnly`
false, a non-empty tile list and a confirmed gate does create it. -/
theorem export_canvas_size (h : Host) (o : ExportOptions) (p : Provider) (level : Int)
    (st : ScanState)
    (hl : useLevel p.mapZoomIn p.mapZoomOut p.mapZoomCurr = some level)
    (hts : p.tileSize ≠ 0)
    (hscan : scan level.toNat p.worldName p.mapName p.registeredTiles = some st) :
    cWidth st p.tileSize = (st.tileMaxX - st.tileMinX) * p.tileSize ∧
      cHeight st p.tileSize = (st.tileMaxY - st.tileMinY) * p.tileSize ∧
      (∀ run, exportBody h o p = some run → ∀ c, run.canvas = some c →
        c = ((st.tileMaxX - st.tileMinX) * p.tileSize,
          (st.tileMaxY - st.tileMinY) * p.tileSize)) ∧
      (o.calcOnly = false →
        tileInfoForMode h.fracText o.mode level.toNat p.tilesDir p.worldName p.mapName st
          ≠ [] →
        gateDecision o.autoStart o.timeout h.gateEvents = some true →
        ∃ run, exportBody h o p = some run ∧
          run.canvas = some ((st.tileMaxX - st.tileMinX) * p.tileSize,
            (st.tileMaxY - st.tileMinY) * p.tileSize)) := by
  refine ⟨rfl, rfl, ?_, ?_⟩
  · intro run hrun c hc
    simp only [exportBody, hl, hts, if_false, hscan, Option.some.injEq] at hrun
    subst hrun
    unfold exportAfterScan at hc
    split_ifs at hc
    all_goals
      first
        | (simp [ExportRun.early] at hc; done)
        | (simp only [Option.some.injEq] at hc
           rw [← hc]
           rfl)
  · intro hcalc hne hdec
    have hlen : ¬ ((tileInfoForMode h.fracText o.mode level.toNat p.tilesDir p.worldName
        p.mapName st).length = 0) := by
      rw [List.length_eq_zero]; exact hne
    refine ⟨exportAfterScan h o p level.toNat st, ?_, ?_⟩
    · simp only [exportBody, hl, hts, if_false, hscan]
    · simp only [exportAfterScan, hcalc, hlen, hdec, Bool.false_eq_true, if_false, if_true]
      rfl

theorem export_canvas_size_witness :
    useLevel (providerWith sampleRegistry).mapZoomIn (providerWith sampleRegistry).mapZoomOut
        (providerWith sampleRegistry).mapZoomCurr = some 2 ∧
      (providerWith sampleRegistry).tileSize ≠ 0 ∧
      scan 2 "world".toList "flat".toList sampleRegistry = some sampleScanState ∧
      cWidth sampleScanState (providerWith sampleRegistry).tileSize
        = (sampleScanState.tileMaxX - sampleScanState.tileMinX)
          * (providerWith sampleRegistry).tileSize ∧
      (exportBody (hostWith []) { autoStart := true } (providerWith sampleRegistry)).map
        (fun run => run.canvas) = some (some (512, 768)) :=
  ⟨by decide, by decide!, by decide!,
    (export_canvas_size (hostWith []) { autoStart := true } (providerWith sampleRegistry) 2
      sampleScanState (by decide) (by decide!) (by decide!)).1,
    by decide!⟩

/-- C19 (code at the failing input): for the sample registry, whose accepted tiles are
`(1, -2)` and `(-3, 4)`, with 128-pixel tiles the canvas is `512 × 768`, and the tile
`(1, -2)`, which lies in the box, is drawn at `(512, 768)`: `x + tileSize` exceeds the canvas
width and `y + tileSize` the canvas height. -/
theorem export_tile_outside_canvas :
    (exportBody (hostWith []) { autoStart := true } (providerWith sampleRegistry)).map
        (fun run => run.canvas) = some (some (512, 768)) ∧
      (exportBody (hostWith []) { autoStart := true } (providerWith sampleRegistry)).map
        (fun run => run.draws.map (fun e => e.item.tilePos)) = some [(1, -2), (-3, 4)] ∧
      (exportBody (hostWith []) { autoStart := true } (providerWith sampleRegistry)).map
        (fun run => run.draws.map (fun e => e.x)) = some [512, 0] ∧
      (exportBody (hostWith []) { autoStart := true } (providerWith sampleRegistry)).map
        (fun run => run.draws.map (fun e => e.y)) = some [some 768, some 0] ∧
      (exportBody (hostWith []) { autoStart := true } (providerWith sampleRegistry)).map
        (fun run => run.draws.map (fun e => e.drawn)) = some [true, true] ∧
      ¬ ((512 : ℚ) + (providerWith sampleRegistry).tileSize ≤ 512) ∧
      ¬ ((768 : ℚ) + (providerWith sampleRegistry).tileSize ≤ 768) := by
  decide!

/-! ### Validation of the `dynmap` object -/

/-- When no property access throws, a missing path makes the validation end with `false`. -/
theorem checkAttrs_false (dynmap : JSVal) (paths : List Str)
    (hno : ∀ a ∈ paths, getObjValue dynmap a ≠ none)
    (hmiss : ∃ a ∈ paths, ∃ v, getObjValue dynmap a = some v ∧ v.missing = true) :
    checkAttrs dynmap paths = some (Completion.returned false) := by
  induction paths with
  | nil => simp at hmiss
  | cons a rest ih =>
    unfold checkAttrs
    cases hv : getObjValue dynmap a with
    | none => exact absurd hv (hno a (List.mem_cons_self _ _))
    | some item =>
      by_cases hm : item.missing = true
      · simp [hm]
      · simp only [hm, Bool.false_eq_true, if_false]
        apply ih (fun b hb => hno b (List.mem_cons_of_mem _ hb))
        obtain ⟨b, hb, v, hbv, hvm⟩ := hmiss
        rcases List.mem_cons.mp hb with rfl | hb'
        · rw [hv] at hbv
          simp only [Option.some.injEq] at hbv
          rw [hbv] at hm
          exact absurd hvm hm
        · exact ⟨b, hb', v, hbv, hvm⟩

/-- C13 (code at the failing input): a `dynmap` object without `registeredTiles` makes the
export end with `false`, and so does one whose leaf `registeredTiles` is `null`; but with
`world: null`, where the required path `world.name` is missing at an intermediate object, the
property access of `getObjValue` throws and the export ends with an exception instead of
`false`. -/
theorem export_null_intermediate_throws :
    exportDynmap (hostWith []) {} 0 (dynmapWith [worldProp])
        = some (ExportRun.early (Completion.returned false)) ∧
      exportDynmap (hostWith []) {} 0
          (dynmapWith [("registeredTiles".toList, JSVal.null), worldProp])
        = some (ExportRun.early (Completion.returned false)) ∧
      (getObjValue (dynmapWith [emptyTilesProp, ("world".toList, JSVal.null)])
        "world.name".toList).isNone = true ∧
      exportDynmap (hostWith []) {} 0
          (dynmapWith [emptyTilesProp, ("world".toList, JSVal.null)])
        = some (ExportRun.early Completion.threw) := by
  decide!

/-! ### Corner mode read back by the scan -/

theorem split_ne_nil (sep : Char) (s : Str) : split sep s ≠ [] := by
  cases s with
  | nil => simp [split]
  | cons c cs =>
    rw [split]
    by_cases h : c = sep
    · simp [h]
    · rw [if_neg h]
      split <;> simp

theorem split_append_sep (sep : Char) (a b : Str) :
    split sep (a ++ sep :: b) = split sep a ++ split sep b := by
  induction a with
  | nil => simp [split]
  | cons c cs ih =>
    rw [List.cons_append, split, split, ih]
    by_cases h : c = sep
    · simp [h]
    · rw [if_neg h, if_neg h]
      cases hs : split sep cs with
      | nil => exact absurd hs (split_ne_nil sep cs)
      | cons x xs => simp

theorem split_of_not_mem (sep : Char) (s : Str) (h : sep ∉ s) : split sep s = [s] := by
  induction s with
  | nil => rfl
  | cons c cs ih =>
    simp only [List.mem_cons, not_or] at h
    have hc : ¬ c = sep := fun e => h.1 e.symm
    rw [split, if_neg hc, ih h.2]

theorem intToString_parts (n : Int) :
    ∃ sg ds : Str, intToString n = sg ++ ds ∧ (sg = [] ∨ sg = ['-']) ∧ ds ≠ [] ∧
      ∀ c ∈ ds, c.isDigit = true := by
  obtain ⟨_, h2, h3⟩ := toDigitsCore_spec (n.natAbs + 1) n.natAbs (by omega)
  have htd : Nat.toDigits 10 n.natAbs = Nat.toDigitsCore 10 (n.natAbs + 1) n.natAbs [] := rfl
  unfold intToString
  by_cases hneg : n < 0
  · rw [if_pos hneg, htd]
    exact ⟨['-'], _, rfl, Or.inr rfl, h3, h2⟩
  · rw [if_neg hneg, htd]
    exact ⟨[], _, rfl, Or.inl rfl, h3, h2⟩

theorem not_mem_intToString (c : Char) (hd : c.isDigit = false) (hm : c ≠ '-') (n : Int) :
    c ∉ intToString n := by
  obtain ⟨sg, ds, h, hsg, _, hds⟩ := intToString_parts n
  rw [h]
  intro hc
  rcases List.mem_append.mp hc with hc | hc
  · rcases hsg with rfl | rfl
    · simp at hc
    · simp only [List.mem_singleton] at hc
      exact hm hc
  · rw [hds c hc] at hd
    exact absurd hd (by decide)

theorem matchIntsAux_digits (ds : Str) (hds : ∀ c ∈ ds, c.isDigit = true) :
    ∀ cur rest : Str, matchIntsAux cur (ds ++ rest) = matchIntsAux (ds.reverse ++ cur) rest := by
  induction ds with
  | nil => intro cur rest; rfl
  | cons c cs ih =>
    intro cur rest
    have hc := hds c (List.mem_cons_self _ _)
    rw [List.cons_append, matchIntsAux, if_pos hc,
      ih (fun d hd => hds d (List.mem_cons_of_mem _ hd))]
    simp

theorem matchIntsAux_intToString (n : Int) (rest : Str) :
    matchIntsAux [] (intToString n ++ rest) = matchIntsAux (intToString n).reverse rest := by
  obtain ⟨sg, ds, h, hsg, _, hds⟩ := intToString_parts n
  rw [h]
  rcases hsg with rfl | rfl
  · simpa using matchIntsAux_digits ds hds [] rest
  · have hminus : ¬ ('-' : Char).isDigit = true := by decide
    rw [List.append_assoc, List.singleton_append, matchIntsAux, if_neg hminus,
      matchIntsAux_digits ds hds]
    simp

theorem intToString_reverse_open (n : Int) :
    ¬ ((intToString n).reverse = [] ∨ (intToString n).reverse = ['-']) := by
  obtain ⟨sg, ds, h, hsg, hne, hds⟩ := intToString_parts n
  rw [h]
  rintro (h0 | h1)
  · simp only [List.reverse_eq_nil_iff, List.append_eq_nil] at h0
    exact hne h0.2
  · have h1' : sg ++ ds = ['-'] := by
      have := congrArg List.reverse h1
      simpa using this
    rcases hsg with rfl | rfl
    · simp only [List.nil_append] at h1'
      have := hds '-' (by rw [h1']; exact List.mem_singleton_self _)
      exact absurd this (by decide)
    · have hlen := congrArg List.length h1'
      simp only [List.length_append, List.length_singleton] at hlen
      exact hne (List.length_eq_zero.mp (by omega))

theorem matchInts_coords (a b : Int) :
    matchIntsAux [] (intToString a ++ '_' :: intToString b)
      = [intToString a, intToString b] := by
  have hu : ¬ ('_' : Char).isDigit = true := by decide
  have hu' : ¬ ('_' : Char) = '-' := by decide
  rw [matchIntsAux_intToString, matchIntsAux, if_neg hu, if_neg (intToString_reverse_open a),
    if_neg hu', List.reverse_reverse]
  have hb := matchIntsAux_intToString b []
  rw [List.append_nil] at hb
  rw [hb, matchIntsAux, if_neg (intToString_reverse_open b), List.reverse_reverse]
  rfl

theorem matchIntsAux_skip (c : Char) (hd : c.isDigit = false) (hm : c ≠ '-') (rest : Str) :
    matchIntsAux [] (c :: rest) = matchIntsAux [] rest := by
  have hd' : ¬ c.isDigit = true := by simp [hd]
  rw [matchIntsAux, if_neg hd', if_neg hm]
  simp

theorem matchIntsAux_skip_z (L : Nat) (rest : Str) :
    matchIntsAux [] (List.replicate L 'z' ++ rest) = matchIntsAux [] rest := by
  induction L with
  | zero => rfl
  | succ k ih =>
    rw [List.replicate_succ, List.cons_append,
      matchIntsAux_skip 'z' (by decide) (by decide), ih]

theorem matchInts_cornerName (L : Nat) (a b : Int) :
    matchInts ((if L = 0 then [] else List.replicate L 'z' ++ ['_'])
        ++ (intToString a ++ ['_'] ++ intToString b))
      = [intToString a, intToString b] := by
  unfold matchInts
  have hform : intToString a ++ ['_'] ++ intToString b
      = intToString a ++ '_' :: intToString b := by simp
  by_cases hL : L = 0
  · rw [if_pos hL, List.nil_append, hform, matchInts_coords]
  · rw [if_neg hL, List.append_assoc, matchIntsAux_skip_z, List.singleton_append,
      matchIntsAux_skip '_' (by decide) (by decide), hform, matchInts_coords]

theorem tileLevelN_of_not_mem (s : Str) (h : 'z' ∉ s) : tileLevelN s = 0 := by
  have hd : s.dropWhile (fun c => c != 'z') = [] := by
    rw [List.dropWhile_eq_nil_iff]
    intro c hc
    have : c ≠ 'z' := fun e => h (e ▸ hc)
    simpa using this
  simp [tileLevelN, matchZ, hd]

theorem takeWhile_replicate_z (L : Nat) (rest : Str) :
    (List.replicate L 'z' ++ '_' :: rest).takeWhile (fun c => c == 'z')
      = List.replicate L 'z' := by
  induction L with
  | zero =>
    have : (('_' : Char) == 'z') = false := by decide
    simp [List.takeWhile_cons, this]
  | succ k ih =>
    rw [List.replicate_succ, List.cons_append, List.takeWhile_cons, ih]
    simp

theorem tileLevelN_cornerName (L : Nat) (a b : Int) :
    tileLevelN ((if L = 0 then [] else List.replicate L 'z' ++ ['_'])
        ++ (intToString a ++ ['_'] ++ intToString b)) = L := by
  by_cases hL : L = 0
  · subst hL
    rw [if_pos rfl, List.nil_append]
    apply tileLevelN_of_not_mem
    intro hz
    simp only [List.mem_append, List.mem_singleton] at hz
    rcases hz with (hz | hz) | hz
    · exact not_mem_intToString 'z' (by decide) (by decide) a hz
    · exact absurd hz (by decide)
    · exact not_mem_intToString 'z' (by decide) (by decide) b hz
  · obtain ⟨k, rfl⟩ := Nat.exists_eq_succ_of_ne_zero hL
    rw [if_neg hL]
    have hshape : List.replicate (k + 1) 'z' ++ ['_']
          ++ (intToString a ++ ['_'] ++ intToString b)
        = 'z' :: (List.replicate k 'z' ++ '_' :: (intToString a ++ ['_'] ++ intToString b)) := by
      simp [List.replicate_succ]
    have hback : 'z' :: (List.replicate k 'z' ++ '_' :: (intToString a ++ ['_'] ++ intToString b))
        = List.replicate (k + 1) 'z' ++ '_' :: (intToString a ++ ['_'] ++ intToString b) := by
      simp [List.replicate_succ]
    rw [hshape]
    have hz : (('z' : Char) != 'z') = false := by decide
    simp only [tileLevelN, matchZ, List.dropWhile_cons, hz, Bool.false_eq_true, if_false]
    rw [hback, takeWhile_replicate_z]
    simp

theorem cornerRecord_split (fracText : ℚ → Str) (L : Nat) (d w m : Str) (tileX tileY : Int)
    (hw : '/' ∉ w) (hm : '/' ∉ m) :
    split '/' (cornerRecord fracText L (d ++ ['/']) w m (tileX : ℚ) (tileY : ℚ)).filePath
      = split '/' d ++
        [ w, m,
          intToString (Int.fdiv (tileX * 2 ^ L) 32) ++ ['_']
            ++ intToString (Int.fdiv (tileY * 2 ^ L) 32),
          (if L = 0 then [] else List.replicate L 'z' ++ ['_'])
            ++ (intToString (tileX * 2 ^ L) ++ ['_'] ++ intToString (tileY * 2 ^ L)) ] := by
  have hslash : ∀ n : Int, '/' ∉ intToString n :=
    not_mem_intToString '/' (by decide) (by decide)
  have hdir : '/' ∉ intToString (Int.fdiv (tileX * 2 ^ L) 32) ++ ['_']
      ++ intToString (Int.fdiv (tileY * 2 ^ L) 32) := by
    intro h
    simp only [List.mem_append, List.mem_singleton] at h
    rcases h with (h | h) | h
    · exact hslash _ h
    · exact absurd h (by decide)
    · exact hslash _ h
  have hname : '/' ∉ (if L = 0 then [] else List.replicate L 'z' ++ ['_'])
      ++ (intToString (tileX * 2 ^ L) ++ ['_'] ++ intToString (tileY * 2 ^ L)) := by
    intro h
    simp only [List.mem_append, List.mem_singleton] at h
    rcases h with h | (h | h) | h
    · split_ifs at h
      · simp at h
      · simp only [List.mem_append, List.mem_replicate, List.mem_singleton] at h
        rcases h with h | h
        · exact absurd h.2 (by decide)
        · exact absurd h (by decide)
    · exact hslash _ h
    · exact absurd h (by decide)
    · exact hslash _ h
  simp only [cornerRecord, cornerFileDir, cornerFileName_intCast]
  simp only [fileCoord_intCast, floor_intCast_div_32, numberToString_intCast]
  have hassoc : ∀ dir name : Str,
      d ++ ['/'] ++ w ++ ['/'] ++ m ++ ['/'] ++ dir ++ ['/'] ++ name
        = d ++ '/' :: (w ++ '/' :: (m ++ '/' :: (dir ++ '/' :: name))) := by
    intro dir name
    simp
  rw [hassoc, split_append_sep, split_append_sep, split_append_sep, split_append_sep,
    split_of_not_mem _ _ hw, split_of_not_mem _ _ hm, split_of_not_mem _ _ hdir,
    split_of_not_mem _ _ hname]
  simp

theorem getD_append_four (xs : List Str) (a b c e : Str) :
    (xs ++ [a, b, c, e]).getD ((xs ++ [a, b, c, e]).length - 1) [] = e ∧
      (xs ++ [a, b, c, e]).getD ((xs ++ [a, b, c, e]).length - 3) [] = b ∧
      (xs ++ [a, b, c, e]).getD ((xs ++ [a, b, c, e]).length - 4) [] = a := by
  have hlen : (xs ++ [a, b, c, e]).length = xs.length + 4 := by simp
  refine ⟨?_, ?_, ?_⟩
  · rw [hlen, List.getD_eq_getElem?_getD, List.getElem?_append_right (by omega)]
    have : xs.length + 4 - 1 - xs.length = 3 := by omega
    rw [this]; rfl
  · rw [hlen, List.getD_eq_getElem?_getD, List.getElem?_append_right (by omega)]
    have : xs.length + 4 - 3 - xs.length = 1 := by omega
    rw [this]; rfl
  · rw [hlen, List.getD_eq_getElem?_getD, List.getElem?_append_right (by omega)]
    have : xs.length + 4 - 4 - xs.length = 0 := by omega
    rw [this]; rfl

/-- C20: for every level `L`, integer cell `(tileX, tileY)`, tiles directory ending with `/`,
and world and map names without `/`, the path synthesized by corner mode is well-formed for
the scan (at least 5 segments, exactly two signed integers in the file name), its derived
level, world and map are `L`, the world name and the map name, its raw coordinates are
`(tileX * 2^L, tileY * 2^L)`, and scanning it at active level `L` accepts exactly the corner
record itself, whose `tilePos` is `(tileX, tileY)`, negative coordinates included. -/
theorem corner_scan_roundtrip (fracText : ℚ → Str) (L : Nat) (d w m key : Str)
    (tileX tileY : Int) (hw : '/' ∉ w) (hm : '/' ∉ m) (path : Str)
    (hpath : path
      = (cornerRecord fracText L (d ++ ['/']) w m (tileX : ℚ) (tileY : ℚ)).filePath) :
    wellFormedPath path ∧
      tileLevelN (segFromEnd path 1) = L ∧
      segFromEnd path 4 = w ∧
      segFromEnd path 3 = m ∧
      rawPos path = some (tileX * 2 ^ L, tileY * 2 ^ L) ∧
      (cornerRecord fracText L (d ++ ['/']) w m (tileX : ℚ) (tileY : ℚ)).tilePos
        = ((tileX : ℚ), (tileY : ℚ)) ∧
      ∃ st, scan L w m [(key, path)] = some st ∧
        st.tileInfo = [cornerRecord fracText L (d ++ ['/']) w m (tileX : ℚ) (tileY : ℚ)] := by
  have hsplit := cornerRecord_split fracText L d w m tileX tileY hw hm
  rw [← hpath] at hsplit
  obtain ⟨g1, g3, g4⟩ := getD_append_four (split '/' d) w m
    (intToString (Int.fdiv (tileX * 2 ^ L) 32) ++ ['_']
      ++ intToString (Int.fdiv (tileY * 2 ^ L) 32))
    ((if L = 0 then [] else List.replicate L 'z' ++ ['_'])
      ++ (intToString (tileX * 2 ^ L) ++ ['_'] ++ intToString (tileY * 2 ^ L)))
  have hname : segFromEnd path 1
      = (if L = 0 then [] else List.replicate L 'z' ++ ['_'])
        ++ (intToString (tileX * 2 ^ L) ++ ['_'] ++ intToString (tileY * 2 ^ L)) := by
    unfold segFromEnd; rw [hsplit]; exact g1
  have hmap : segFromEnd path 3 = m := by
    unfold segFromEnd; rw [hsplit]; exact g3
  have hworld : segFromEnd path 4 = w := by
    unfold segFromEnd; rw [hsplit]; exact g4
  have hlen : 5 ≤ (split '/' path).length := by
    rw [hsplit]
    have := List.length_pos.mpr (split_ne_nil '/' d)
    simp only [List.length_append, List.length_cons, List.length_nil]
    omega
  have hints : matchInts (segFromEnd path 1)
      = [intToString (tileX * 2 ^ L), intToString (tileY * 2 ^ L)] := by
    rw [hname, matchInts_cornerName]
  have hlevel : tileLevelN (segFromEnd path 1) = L := by
    rw [hname, tileLevelN_cornerName]
  have hraw : rawPos path = some (tileX * 2 ^ L, tileY * 2 ^ L) := by
    simp only [rawPos, hints, parseInt_intToString]
  have huse : isUse L w m path := ⟨hlevel, hworld, hmap⟩
  have hoff : tilePosOffset L ≠ 0 := by unfold tilePosOffset; positivity
  have hx : ((tileX * 2 ^ L : Int) : ℚ) / tilePosOffset L = (tileX : ℚ) := by
    unfold tilePosOffset at hoff ⊢
    push_cast
    field_simp
  have hy : ((tileY * 2 ^ L : Int) : ℚ) / tilePosOffset L = (tileY : ℚ) := by
    unfold tilePosOffset at hoff ⊢
    push_cast
    field_simp
  refine ⟨⟨hlen, by rw [hints]; rfl⟩, hlevel, hworld, hmap, hraw, rfl, ?_⟩
  have hentry : scanEntry L w m ScanState.init path
      = some (ScanState.init.accept path (tileX : ℚ) (tileY : ℚ)) := by
    simp only [scanEntry, hlen, if_true, hraw, huse, hx, hy]
  refine ⟨ScanState.init.accept path (tileX : ℚ) (tileY : ℚ), ?_, ?_⟩
  · rw [scan, scanFrom_cons, hentry]
    rfl
  · rw [hpath]
    rfl

theorem corner_scan_roundtrip_witness :
    '/' ∉ "world".toList ∧ '/' ∉ "flat".toList ∧
      wellFormedPath "tiles/world/flat/-1_0/zz_-12_16".toList ∧
      rawPos "tiles/world/flat/-1_0/zz_-12_16".toList = some (-3 * 2 ^ 2, 4 * 2 ^ 2) ∧
      ∃ st, scan 2 "world".toList "flat".toList
          [("t".toList, "tiles/world/flat/-1_0/zz_-12_16".toList)] = some st ∧
        st.tileInfo = [cornerRecord (fun _ => []) 2 ("tiles".toList ++ ['/'])
          "world".toList "flat".toList ((-3 : Int) : ℚ) ((4 : Int) : ℚ)] :=
  have h := corner_scan_roundtrip (fun _ => []) 2 "tiles".toList "world".toList
    "flat".toList "t".toList (-3) 4 (by decide) (by decide)
    "tiles/world/flat/-1_0/zz_-12_16".toList (by decide!)
  ⟨by decide, by decide, h.1, h.2.2.2.2.1, h.2.2.2.2.2.2⟩

/-! ### Concrete evaluations -/

example : split '/' "a/b//c".toList = ["a".toList, "b".toList, [], "c".toList] := by decide

example : split '/' [] = [[]] := by decide

example : matchInts "zzz_-10_0.png".toList = ["-10".toList, "0".toList] := by decide

example : matchInts "--5-".toList = ["-5".toList] := by decide

example : matchInts "1-2x3".toList = ["1".toList, "-2".toList, "3".toList] := by decide

example : matchInts "abc".toList = [] := by decide

example : parseInt "-012".toList = -12 := by decide

example : tileLevelN "zzz_0_0.png".toList = 3 := by decide

example : tileLevelN "az_zz".toList = 1 := by decide

example : tileLevelN "0_0.png".toList = 0 := by decide

example : intToString (-120) = "-120".toList := by decide

example : padStart ['_'] 3 ['z'] = "zz_".toList := by decide

example : scan 2 "world".toList "flat".toList sampleRegistry = some sampleScanState := by
  decide!

example :
    (cornerGrid (fun _ => []) 2 "tiles/".toList "world".toList "flat".toList
        (-9) (-8) 0 1).map (fun r => r.filePath)
      = [ "tiles/world/flat/-2_0/zz_-36_0".toList, "tiles/world/flat/-2_0/zz_-36_4".toList,
          "tiles/world/flat/-1_0/zz_-32_0".toList, "tiles/world/flat/-1_0/zz_-32_4".toList ] := by
  decide!

example :
    (cornerGrid (fun _ => []) 0 "tiles/".toList "world".toList "flat".toList
        0 0 0 0).map (fun r => r.filePath)
      = ["tiles/world/flat/0_0/0_0".toList] := by
  decide!

example :
    [(-2 : ℚ), -1, 0, 1, 2, 3].map (remapY (fun _ => []) (-2) 2)
      = [some 2, some 1, some 0, some (-1), some (-2), none] := by
  decide!

example :
    fetchedTiles (drawLoop (fun _ => []) (fun _ => true) (some 2) 0 0 0 128
        ((List.range 5).map (fun k => { filePath := [], tilePos := ((k : ℚ), 0) })))
      = (List.range 3).map (fun k => { filePath := [], tilePos := ((k : ℚ), 0) }) := by
  decide!

end DynmapExport
